import Mathlib

/-!
Verification of the SPC pipeline editor (Pandas-as-a-service).

The source consists of two React editor components:
`src/studio/pipeline_canvas_editor.tsx` (`PipelineEditor`, embedded below in
namespace `PE`) and `src/unnamed/part_001` (`EnhancedPipelineEditor`,
namespace `EPE`).  SPC documents are plain JSON objects, so the document
model is a JSON value type together with models of `JSON.stringify(v, null, 2)`
and `JSON.parse` as used by `exportSPC` / `importSPC`.
-/

/-- JSON values.  Numbers are modelled as integers (all numbers the editors
produce are integral); objects are ordered key/value lists, matching JS
object-literal insertion order. -/
inductive Json where
  | null : Json
  | bool : Bool → Json
  | num : Int → Json
  | str : String → Json
  | arr : List Json → Json
  | obj : List (String × Json) → Json

namespace Json

mutual

/-- Structural equality test on JSON values. -/
def beqJ : Json → Json → Bool
  | .null, .null => true
  | .bool a, .bool b => a == b
  | .num a, .num b => a == b
  | .str a, .str b => a == b
  | .arr a, .arr b => beqL a b
  | .obj a, .obj b => beqO a b
  | _, _ => false

/-- Structural equality test on JSON arrays. -/
def beqL : List Json → List Json → Bool
  | [], [] => true
  | x :: xs, y :: ys => beqJ x y && beqL xs ys
  | _, _ => false

/-- Structural equality test on JSON object member lists. -/
def beqO : List (String × Json) → List (String × Json) → Bool
  | [], [] => true
  | (k1, v1) :: xs, (k2, v2) :: ys => k1 == k2 && beqJ v1 v2 && beqO xs ys
  | _, _ => false

end

mutual

theorem beqJ_iff : ∀ a b : Json, beqJ a b = true ↔ a = b
  | .null, .null => by simp [beqJ]
  | .null, .bool _ | .null, .num _ | .null, .str _ | .null, .arr _ | .null, .obj _ =>
      by simp [beqJ]
  | .bool _, .null | .bool _, .num _ | .bool _, .str _ | .bool _, .arr _ | .bool _, .obj _ =>
      by simp [beqJ]
  | .num _, .null | .num _, .bool _ | .num _, .str _ | .num _, .arr _ | .num _, .obj _ =>
      by simp [beqJ]
  | .str _, .null | .str _, .bool _ | .str _, .num _ | .str _, .arr _ | .str _, .obj _ =>
      by simp [beqJ]
  | .arr _, .null | .arr _, .bool _ | .arr _, .num _ | .arr _, .str _ | .arr _, .obj _ =>
      by simp [beqJ]
  | .obj _, .null | .obj _, .bool _ | .obj _, .num _ | .obj _, .str _ | .obj _, .arr _ =>
      by simp [beqJ]
  | .bool a, .bool b => by simp [beqJ]
  | .num a, .num b => by simp [beqJ]
  | .str a, .str b => by simp [beqJ]
  | .arr a, .arr b => by simp [beqJ, beqL_iff a b]
  | .obj a, .obj b => by simp [beqJ, beqO_iff a b]

theorem beqL_iff : ∀ a b : List Json, beqL a b = true ↔ a = b
  | [], [] => by simp [beqL]
  | [], _ :: _ => by simp [beqL]
  | _ :: _, [] => by simp [beqL]
  | x :: xs, y :: ys => by
      simp [beqL, beqJ_iff x y, beqL_iff xs ys]

theorem beqO_iff : ∀ a b : List (String × Json), beqO a b = true ↔ a = b
  | [], [] => by simp [beqO]
  | [], _ :: _ => by simp [beqO]
  | _ :: _, [] => by simp [beqO]
  | (k1, v1) :: xs, (k2, v2) :: ys => by
      simp [beqO, beqJ_iff v1 v2, beqO_iff xs ys]

end

instance : DecidableEq Json := fun a b => decidable_of_iff _ (beqJ_iff a b)

/-- Field access `j.k` on a JS object: the value at the first matching key,
`none` (undefined) otherwise. -/
def getField : Json → String → Option Json
  | obj kvs, k => kvs.lookup k
  | _, _ => none

/-- Key/value update on an association list, as the JS spread
`{...o, [k]: v}`: an existing key keeps its position and gets the new value,
a new key is appended at the end. -/
def setKey (k : String) (v : Json) : List (String × Json) → List (String × Json)
  | [] => [(k, v)]
  | (k', v') :: rest =>
    if k' = k then (k, v) :: rest else (k', v') :: setKey k v rest

/-- `{...j, [k]: v}` on a JS object; identity on non-objects. -/
def setField (j : Json) (k : String) (v : Json) : Json :=
  match j with
  | obj kvs => obj (setKey k v kvs)
  | _ => j

/-- JS truthiness of a JSON value (`!x` negated): `null`, `false`, `0` and
`""` are falsy; every object or array (even empty) is truthy. -/
def truthy : Json → Bool
  | null => false
  | bool b => b
  | num n => n != 0
  | str s => s != ""
  | arr _ => true
  | obj _ => true

end Json

/-! ### Decimal digits -/

/-- The decimal digit character for `n < 10` (and `'9'` otherwise). -/
def digitChar : Nat → Char
  | 0 => '0' | 1 => '1' | 2 => '2' | 3 => '3' | 4 => '4'
  | 5 => '5' | 6 => '6' | 7 => '7' | 8 => '8' | _ => '9'

/-- Is `c` a decimal digit? -/
def isDigit (c : Char) : Bool :=
  '0' ≤ c && c ≤ '9'

/-- Numeric value of a digit character. -/
def digitVal (c : Char) : Nat :=
  c.toNat - '0'.toNat

/-- Decimal digits of `n`, most significant first, with explicit fuel
(enough whenever `n < fuel`). -/
def natToCharsAux : Nat → Nat → List Char
  | 0, _ => []
  | fuel + 1, n =>
    if n < 10 then [digitChar n]
    else natToCharsAux fuel (n / 10) ++ [digitChar (n % 10)]

/-- Decimal representation of a natural number, most significant digit
first, no leading zeros (`0 ↦ "0"`). -/
def natToChars (n : Nat) : List Char :=
  natToCharsAux (n + 1) n

theorem natToCharsAux_fuel (n fuel fuel' : Nat) (h : n < fuel) (h' : n < fuel') :
    natToCharsAux fuel n = natToCharsAux fuel' n := by
  match fuel, fuel' with
  | 0, _ => omega
  | _ + 1, 0 => omega
  | f + 1, f' + 1 =>
    rw [natToCharsAux, natToCharsAux]
    by_cases h10 : n < 10
    · rw [if_pos h10, if_pos h10]
    · rw [if_neg h10, if_neg h10]
      have hd : n / 10 < n := Nat.div_lt_self (by omega) (by omega)
      rw [natToCharsAux_fuel (n / 10) f f' (by omega) (by omega)]
termination_by n
decreasing_by exact hd

theorem natToChars_eq (n : Nat) :
    natToChars n = if n < 10 then [digitChar n]
      else natToChars (n / 10) ++ [digitChar (n % 10)] := by
  rw [natToChars, natToCharsAux]
  by_cases h10 : n < 10
  · rw [if_pos h10, if_pos h10]
  · rw [if_neg h10, if_neg h10, natToChars]
    rw [natToCharsAux_fuel (n / 10) n (n / 10 + 1)
      (Nat.div_lt_self (by omega) (by omega)) (by omega)]

/-- Decimal representation of an integer, as JS `String(n)` /
`JSON.stringify` for integral numbers. -/
def intToChars (i : Int) : List Char :=
  if i < 0 then '-' :: natToChars i.natAbs else natToChars i.toNat

/-! ### String escaping (`JSON.stringify` on strings) -/

/-- The escape sequence `JSON.stringify` produces for one character.
`"`, `\`, newline, tab, carriage return, backspace and form feed get
two-character escapes; every other character is emitted verbatim. -/
def escChar (c : Char) : List Char :=
  if c = '"' then ['\\', '"']
  else if c = '\\' then ['\\', '\\']
  else if c = '\n' then ['\\', 'n']
  else if c = '\t' then ['\\', 't']
  else if c = '\r' then ['\\', 'r']
  else if c = '\x08' then ['\\', 'b']
  else if c = '\x0C' then ['\\', 'f']
  else [c]

/-- Escaped body of a JSON string literal. -/
def escStr : List Char → List Char
  | [] => []
  | c :: cs => escChar c ++ escStr cs

/-! ### `JSON.stringify(v, null, 2)` -/

/-- Indentation for nesting depth `d` with a 2-space gap. -/
def indChars (d : Nat) : List Char :=
  List.replicate (2 * d) ' '

mutual

/-- `JSON.stringify(v, null, 2)` at nesting depth `d`: the serialization the
editors' `exportSPC` writes to the downloaded `.spc.json` file. -/
def strVal (d : Nat) : Json → List Char
  | .num i => intToChars i
  | .null => ['n', 'u', 'l', 'l']
  | .bool b => if b then ['t', 'r', 'u', 'e'] else ['f', 'a', 'l', 's', 'e']
  | .str s => '"' :: (escStr s.data ++ ['"'])
  | .arr [] => ['[', ']']
  | .arr (x :: xs) =>
      '[' :: '\n' :: (strItemsA (d + 1) (x :: xs) ++ '\n' :: (indChars d ++ [']']))
  | .obj [] => ['{', '}']
  | .obj (kv :: kvs) =>
      '{' :: '\n' :: (strItemsO (d + 1) (kv :: kvs) ++ '\n' :: (indChars d ++ ['}']))

/-- Array elements, one per line at indentation `d`, separated by `",\n"`. -/
def strItemsA (d : Nat) : List Json → List Char
  | [] => []
  | [x] => indChars d ++ strVal d x
  | x :: y :: ys =>
      indChars d ++ strVal d x ++ ',' :: '\n' :: strItemsA d (y :: ys)

/-- Object members `"key": value`, one per line at indentation `d`,
separated by `",\n"`. -/
def strItemsO (d : Nat) : List (String × Json) → List Char
  | [] => []
  | [(k, v)] =>
      indChars d ++ ('"' :: (escStr k.data ++ ['"'])) ++ ':' :: ' ' :: strVal d v
  | (k, v) :: kv2 :: kvs =>
      indChars d ++ ('"' :: (escStr k.data ++ ['"'])) ++ ':' :: ' ' :: strVal d v ++
        ',' :: '\n' :: strItemsO d (kv2 :: kvs)

end

/-! ### `JSON.parse`

A recursive-descent model of `JSON.parse`, with a fuel argument bounding
the nesting depth.  It covers the JSON fragment the serializer above can
produce (integral numbers, the two-character escapes). -/

/-- JSON whitespace. -/
def isWs (c : Char) : Bool :=
  c = ' ' || c = '\n' || c = '\t' || c = '\r'

/-- Drop leading whitespace. -/
def skipWs : List Char → List Char
  | [] => []
  | c :: cs => if isWs c then skipWs cs else c :: cs

/-- Decode a one-character escape sequence (`\X`). -/
def unesc (c : Char) : Option Char :=
  if c = '"' then some '"'
  else if c = '\\' then some '\\'
  else if c = '/' then some '/'
  else if c = 'n' then some '\n'
  else if c = 't' then some '\t'
  else if c = 'r' then some '\r'
  else if c = 'b' then some '\x08'
  else if c = 'f' then some '\x0C'
  else none

/-- Parse the body of a string literal up to the closing quote, returning
the decoded characters and the remaining input. -/
def parseStrBody : List Char → Option (List Char × List Char)
  | [] => none
  | c :: rest =>
    if c = '"' then some ([], rest)
    else if c = '\\' then
      match rest with
      | [] => none
      | e :: rest2 =>
        match unesc e, parseStrBody rest2 with
        | some c2, some (s, r) => some (c2 :: s, r)
        | _, _ => none
    else
      match parseStrBody rest with
      | some (s, r) => some (c :: s, r)
      | none => none

/-- Consume a maximal run of digits, accumulating their value onto `acc`. -/
def parseDigitsAux (acc : Nat) : List Char → Nat × List Char
  | [] => (acc, [])
  | c :: cs =>
    if isDigit c then parseDigitsAux (10 * acc + digitVal c) cs else (acc, c :: cs)

/-- Parse an integer literal (optional minus sign, then digits). -/
def parseNum : List Char → Option (Int × List Char)
  | [] => none
  | c :: rest =>
    if c = '-' then
      match rest with
      | [] => none
      | d :: _ =>
        if isDigit d then
          let (m, r) := parseDigitsAux 0 rest
          some (-(m : Int), r)
        else none
    else if isDigit c then
      let (m, r) := parseDigitsAux 0 (c :: rest)
      some ((m : Int), r)
    else none

mutual

/-- Parse one JSON value from already-whitespace-trimmed input. -/
def parseValCore (fuel : Nat) : List Char → Option (Json × List Char)
  | [] => none
  | c :: rest =>
    if c = 'n' then
      match rest with
      | 'u' :: 'l' :: 'l' :: r => some (Json.null, r)
      | _ => none
    else if c = 't' then
      match rest with
      | 'r' :: 'u' :: 'e' :: r => some (Json.bool true, r)
      | _ => none
    else if c = 'f' then
      match rest with
      | 'a' :: 'l' :: 's' :: 'e' :: r => some (Json.bool false, r)
      | _ => none
    else if c = '"' then
      match parseStrBody rest with
      | some (s, r) => some (Json.str (String.mk s), r)
      | none => none
    else if c = '[' then
      match skipWs rest with
      | ']' :: r => some (Json.arr [], r)
      | _ =>
        match parseArrItems fuel rest with
        | some (xs, r) => some (Json.arr xs, r)
        | none => none
    else if c = '{' then
      match skipWs rest with
      | '}' :: r => some (Json.obj [], r)
      | _ =>
        match parseObjItems fuel rest with
        | some (kvs, r) => some (Json.obj kvs, r)
        | none => none
    else
      match parseNum (c :: rest) with
      | some (i, r) => some (Json.num i, r)
      | none => none

/-- Parse one JSON value (leading whitespace allowed). -/
def parseVal : Nat → List Char → Option (Json × List Char)
  | 0, _ => none
  | fuel + 1, cs => parseValCore fuel (skipWs cs)

/-- Parse the elements of a non-empty array, consuming the closing `]`. -/
def parseArrItems (fuel : Nat) (cs : List Char) : Option (List Json × List Char) :=
  match fuel with
  | 0 => none
  | fuel + 1 =>
    match parseVal fuel cs with
    | none => none
    | some (j, r) =>
      match skipWs r with
      | ',' :: r2 =>
        match parseArrItems fuel r2 with
        | some (js, r3) => some (j :: js, r3)
        | none => none
      | ']' :: r2 => some ([j], r2)
      | _ => none

/-- Parse the members of a non-empty object, consuming the closing `}`. -/
def parseObjItems (fuel : Nat) (cs : List Char) : Option (List (String × Json) × List Char) :=
  match fuel with
  | 0 => none
  | fuel + 1 =>
    match skipWs cs with
    | '"' :: r =>
      match parseStrBody r with
      | none => none
      | some (k, r2) =>
        match skipWs r2 with
        | ':' :: r3 =>
          match parseVal fuel r3 with
          | none => none
          | some (v, r4) =>
            match skipWs r4 with
            | ',' :: r5 =>
              match parseObjItems fuel r5 with
              | some (kvs, r6) => some ((String.mk k, v) :: kvs, r6)
              | none => none
            | '}' :: r5 => some ([(String.mk k, v)], r5)
            | _ => none
        | _ => none
    | _ => none

end

/-- `JSON.parse`: parse a complete document, rejecting trailing
non-whitespace input. -/
def parseJson (s : String) : Option Json :=
  match parseVal (s.data.length + 1) s.data with
  | some (j, rest) => if skipWs rest = [] then some j else none
  | none => none

/-! ### Roundtrip: `parseJson (stringify v) = some v` -/

theorem skipWs_cons_not {c : Char} (h : isWs c = false) (cs : List Char) :
    skipWs (c :: cs) = c :: cs := by
  simp [skipWs, h]

theorem skipWs_append {p : List Char} (h : p.all isWs = true) (cs : List Char) :
    skipWs (p ++ cs) = skipWs cs := by
  induction p with
  | nil => rfl
  | cons c p ih =>
    simp only [List.all_cons, Bool.and_eq_true] at h
    simp [skipWs, h.1, ih h.2]

theorem indChars_all_ws (d : Nat) : (indChars d).all isWs = true := by
  rw [List.all_eq_true]
  intro c hc
  rw [indChars] at hc
  rw [List.eq_of_mem_replicate hc]
  decide

theorem digitChar_isDigit {n : Nat} (h : n < 10) : isDigit (digitChar n) = true := by
  interval_cases n <;> decide

theorem digitVal_digitChar {n : Nat} (h : n < 10) : digitVal (digitChar n) = n := by
  interval_cases n <;> decide

theorem natToChars_mem (n : Nat) : ∀ c ∈ natToChars n, ∃ k, k < 10 ∧ c = digitChar k := by
  rw [natToChars_eq]
  split
  · rename_i h
    intro c hc
    simp at hc
    exact ⟨n, by omega, hc⟩
  · rename_i h
    intro c hc
    simp at hc
    rcases hc with hc | hc
    · exact natToChars_mem (n / 10) c hc
    · exact ⟨n % 10, by omega, hc⟩
decreasing_by exact Nat.div_lt_self (by omega) (by omega)

theorem natToChars_ne_nil (n : Nat) : natToChars n ≠ [] := by
  rw [natToChars_eq]
  split
  · simp
  · simp [natToChars_ne_nil (n / 10)]
decreasing_by exact Nat.div_lt_self (by omega) (by omega)

/-- `noDigitHead cs`: the input does not start with a digit, so a maximal
digit run ending right before it is well delimited. -/
def noDigitHead : List Char → Bool
  | [] => true
  | c :: _ => !isDigit c

theorem parseDigitsAux_stop {rest : List Char} (h : noDigitHead rest = true) (acc : Nat) :
    parseDigitsAux acc rest = (acc, rest) := by
  cases rest with
  | nil => rfl
  | cons c cs =>
    simp [noDigitHead] at h
    simp [parseDigitsAux, h]

theorem parseDigitsAux_append (n : Nat) :
    ∀ acc rest, parseDigitsAux acc (natToChars n ++ rest) =
      parseDigitsAux (acc * 10 ^ (natToChars n).length + n) rest := by
  intro acc rest
  rw [natToChars_eq]
  split
  · rename_i h
    simp [parseDigitsAux, digitChar_isDigit h, digitVal_digitChar h]
    ring_nf
  · rename_i h
    rw [List.append_assoc, parseDigitsAux_append (n / 10), List.length_append]
    have h10 : n % 10 < 10 := by omega
    simp [parseDigitsAux, digitChar_isDigit h10, digitVal_digitChar h10]
    congr 1
    rw [pow_succ]
    have := Nat.div_add_mod n 10
    ring_nf
    omega
decreasing_by exact Nat.div_lt_self (by omega) (by omega)

theorem natToChars_head (n : Nat) :
    ∃ k t, k < 10 ∧ natToChars n = digitChar k :: t := by
  rcases h : natToChars n with _ | ⟨c, t⟩
  · exact absurd h (natToChars_ne_nil n)
  · have hc : c ∈ natToChars n := by rw [h]; exact List.mem_cons_self c t
    obtain ⟨k, hk, hck⟩ := natToChars_mem n c hc
    refine ⟨k, t, hk, ?_⟩
    rw [hck]

theorem parseDigitsAux_natToChars {rest : List Char} (h : noDigitHead rest = true)
    (n : Nat) : parseDigitsAux 0 (natToChars n ++ rest) = (n, rest) := by
  rw [parseDigitsAux_append, parseDigitsAux_stop h]
  simp

theorem parseNum_intToChars {rest : List Char} (h : noDigitHead rest = true) (i : Int) :
    parseNum (intToChars i ++ rest) = some (i, rest) := by
  rw [intToChars]
  split
  · rename_i hneg
    obtain ⟨k, t, hk, ht⟩ := natToChars_head i.natAbs
    have hdig := parseDigitsAux_natToChars h i.natAbs
    rw [ht] at hdig
    simp only [List.cons_append] at hdig
    rw [ht]
    simp only [List.cons_append, parseNum]
    simp [digitChar_isDigit hk, hdig]
    rw [abs_of_neg hneg]
    ring
  · rename_i hpos
    obtain ⟨k, t, hk, ht⟩ := natToChars_head i.toNat
    have hdig := parseDigitsAux_natToChars h i.toNat
    rw [ht] at hdig
    simp only [List.cons_append] at hdig
    rw [ht]
    simp only [List.cons_append, parseNum]
    have hdash : digitChar k ≠ '-' := by interval_cases k <;> decide
    simp [hdash, digitChar_isDigit hk, hdig]
    omega
theorem parseStrBody_esc (s : List Char) (rest : List Char) :
    parseStrBody (escStr s ++ '"' :: rest) = some (s, rest) := by
  induction s with
  | nil =>
    rw [escStr, List.nil_append, parseStrBody.eq_def]
    simp
  | cons c cs ih =>
    rw [escStr, List.append_assoc]
    by_cases h1 : c = '"'
    · subst h1
      rw [show escChar '"' = ['\\', '"'] from rfl]
      rw [List.cons_append, List.cons_append, parseStrBody.eq_def]
      simp [unesc, ih]
    · by_cases h2 : c = '\\'
      · subst h2
        rw [show escChar '\\' = ['\\', '\\'] from rfl]
        rw [List.cons_append, List.cons_append, parseStrBody.eq_def]
        simp [unesc, ih]
      · by_cases h3 : c = '\n'
        · subst h3
          rw [show escChar '\n' = ['\\', 'n'] from rfl]
          rw [List.cons_append, List.cons_append, parseStrBody.eq_def]
          simp [unesc, ih]
        · by_cases h4 : c = '\t'
          · subst h4
            rw [show escChar '\t' = ['\\', 't'] from rfl]
            rw [List.cons_append, List.cons_append, parseStrBody.eq_def]
            simp [unesc, ih]
          · by_cases h5 : c = '\r'
            · subst h5
              rw [show escChar '\r' = ['\\', 'r'] from rfl]
              rw [List.cons_append, List.cons_append, parseStrBody.eq_def]
              simp [unesc, ih]
            · by_cases h6 : c = '\x08'
              · subst h6
                rw [show escChar '\x08' = ['\\', 'b'] from rfl]
                rw [List.cons_append, List.cons_append, parseStrBody.eq_def]
                simp [unesc, ih]
              · by_cases h7 : c = '\x0C'
                · subst h7
                  rw [show escChar '\x0C' = ['\\', 'f'] from rfl]
                  rw [List.cons_append, List.cons_append, parseStrBody.eq_def]
                  simp [unesc, ih]
                · rw [show escChar c = [c] from by simp [escChar, h1, h2, h3, h4, h5, h6, h7]]
                  rw [List.cons_append, parseStrBody.eq_def]
                  simp [h1, h2, ih]

/-- The characters a serialized JSON value can start with. -/
def goodHeads : List Char :=
  ['n', 't', 'f', '"', '[', '{', '-'] ++ (List.range 10).map digitChar

theorem digitChar_mem_goodHeads {k : Nat} (h : k < 10) : digitChar k ∈ goodHeads := by
  interval_cases k <;> decide

theorem intToChars_head (i : Int) :
    ∃ c t, intToChars i = c :: t ∧ c ∈ goodHeads := by
  rw [intToChars]
  split
  · exact ⟨'-', natToChars i.natAbs, rfl, by decide⟩
  · obtain ⟨k, t, hk, ht⟩ := natToChars_head i.toNat
    exact ⟨digitChar k, t, ht, digitChar_mem_goodHeads hk⟩

theorem strVal_head (d : Nat) (j : Json) :
    ∃ c t, strVal d j = c :: t ∧ c ∈ goodHeads := by
  cases j with
  | null => exact ⟨'n', _, rfl, by decide⟩
  | bool b => cases b with
    | true =>
      exact ⟨'t', _, by rw [show strVal d (Json.bool true) = ['t', 'r', 'u', 'e'] from rfl],
        by decide⟩
    | false =>
      exact ⟨'f', _,
        by rw [show strVal d (Json.bool false) = ['f', 'a', 'l', 's', 'e'] from rfl],
        by decide⟩
  | num i =>
    obtain ⟨c, t, hct, hc⟩ := intToChars_head i
    exact ⟨c, t, by rw [strVal, hct], hc⟩
  | str s => exact ⟨'"', _, rfl, by decide⟩
  | arr xs => cases xs with
    | nil => exact ⟨'[', _, rfl, by decide⟩
    | cons x xs => exact ⟨'[', _, rfl, by decide⟩
  | obj kvs => cases kvs with
    | nil => exact ⟨'{', _, rfl, by decide⟩
    | cons kv kvs => exact ⟨'{', _, rfl, by decide⟩

theorem goodHeads_not_ws {c : Char} (h : c ∈ goodHeads) : isWs c = false := by
  fin_cases h <;> decide

theorem goodHeads_ne_rbracket {c : Char} (h : c ∈ goodHeads) : c ≠ ']' := by
  fin_cases h <;> decide

theorem goodHeads_ne_rbrace {c : Char} (h : c ∈ goodHeads) : c ≠ '}' := by
  fin_cases h <;> decide

theorem noDigitHead_cons {c : Char} (h : isDigit c = false) (cs : List Char) :
    noDigitHead (c :: cs) = true := by
  simp [noDigitHead, h]

mutual

/-- Nesting size of a JSON value: an upper bound on the parser fuel needed. -/
def jsize : Json → Nat
  | .null => 1
  | .bool _ => 1
  | .num _ => 1
  | .str _ => 1
  | .arr xs => 1 + jsizeL xs
  | .obj kvs => 1 + jsizeO kvs

/-- Nesting size of an array's elements. -/
def jsizeL : List Json → Nat
  | [] => 0
  | x :: xs => 1 + max (jsize x) (jsizeL xs)

/-- Nesting size of an object's members. -/
def jsizeO : List (String × Json) → Nat
  | [] => 0
  | (_, v) :: kvs => 1 + max (jsize v) (jsizeO kvs)

end

theorem jsize_pos (j : Json) : 1 ≤ jsize j := by
  cases j <;> simp [jsize]

mutual

theorem jsize_le_strVal (d : Nat) (j : Json) : jsize j ≤ (strVal d j).length + 1 := by
  cases j with
  | null => simp [jsize, strVal]
  | bool b => cases b <;> simp [jsize, strVal]
  | num i => simp only [jsize]; omega
  | str s => simp only [jsize]; omega
  | arr xs =>
    cases xs with
    | nil => simp [jsize, jsizeL, strVal]
    | cons x xs =>
      have hb := jsizeL_le_strItemsA (d + 1) (x :: xs) (by simp) (by omega)
      simp only [jsize, strVal, List.length_cons, List.length_append, indChars,
        List.length_replicate]
      omega
  | obj kvs =>
    cases kvs with
    | nil => simp [jsize, jsizeO, strVal]
    | cons kv kvs =>
      have hb := jsizeO_le_strItemsO (d + 1) (kv :: kvs) (by simp) (by omega)
      simp only [jsize, strVal, List.length_cons, List.length_append, indChars,
        List.length_replicate]
      omega

theorem jsizeL_le_strItemsA (d : Nat) (xs : List Json) (hxs : xs ≠ []) (hd : 1 ≤ d) :
    jsizeL xs ≤ (strItemsA d xs).length := by
  match xs with
  | [x] =>
    have ha := jsize_le_strVal d x
    simp only [jsizeL, jsize, strItemsA, List.length_append, indChars,
      List.length_replicate, List.length_nil, List.length_cons]
    omega
  | x :: y :: ys =>
    have ha := jsize_le_strVal d x
    have hb := jsizeL_le_strItemsA d (y :: ys) (by simp) hd
    rw [jsizeL, strItemsA]
    simp only [List.length_append, indChars, List.length_replicate, List.length_cons]
    omega

theorem jsizeO_le_strItemsO (d : Nat) (kvs : List (String × Json)) (hkvs : kvs ≠ [])
    (hd : 1 ≤ d) : jsizeO kvs ≤ (strItemsO d kvs).length := by
  match kvs with
  | [(k, v)] =>
    have ha := jsize_le_strVal d v
    simp only [jsizeO, jsize, strItemsO, List.length_append, indChars,
      List.length_replicate, List.length_nil, List.length_cons]
    omega
  | (k, v) :: kv2 :: kvs =>
    have ha := jsize_le_strVal d v
    have hb := jsizeO_le_strItemsO d (kv2 :: kvs) (by simp) hd
    rw [jsizeO, strItemsO]
    simp only [List.length_append, indChars, List.length_replicate, List.length_cons]
    omega

end

theorem intToChars_headCase (i : Int) :
    ∃ c t, intToChars i = c :: t ∧ (c = '-' ∨ ∃ k, k < 10 ∧ c = digitChar k) := by
  rw [intToChars]
  split
  · exact ⟨'-', _, rfl, Or.inl rfl⟩
  · obtain ⟨k, t, hk, ht⟩ := natToChars_head i.toNat
    exact ⟨digitChar k, t, ht, Or.inr ⟨k, hk, rfl⟩⟩

theorem parseValCore_int (f : Nat) {rest : List Char} (h : noDigitHead rest = true) (i : Int) :
    parseValCore f (intToChars i ++ rest) = some (Json.num i, rest) := by
  have hnum := parseNum_intToChars h i
  obtain ⟨c, t, hct, hcase⟩ := intToChars_headCase i
  rw [hct] at hnum ⊢
  rw [List.cons_append] at hnum ⊢
  rcases hcase with hc | ⟨k, hk, hc⟩
  · subst hc
    rw [parseValCore.eq_def]
    simp [hnum]
  · subst hc
    interval_cases k <;>
      (simp only [digitChar] at hnum ⊢; rw [parseValCore.eq_def]; simp [hnum])

theorem skipWs_nl_ind {c : Char} (hc : isWs c = false) (dc : Nat) (rest : List Char) :
    skipWs ('\n' :: (indChars dc ++ (c :: rest))) = c :: rest := by
  have h1 : ('\n' :: indChars dc).all isWs = true := by
    simp [List.all_cons, indChars_all_ws, isWs]
  calc skipWs ('\n' :: (indChars dc ++ (c :: rest)))
      = skipWs (('\n' :: indChars dc) ++ (c :: rest)) := by simp
    _ = skipWs (c :: rest) := skipWs_append h1 _
    _ = c :: rest := skipWs_cons_not hc _

theorem strItemsA_decomp (d : Nat) (x : Json) (xs : List Json) :
    ∃ sep, strItemsA d (x :: xs) = indChars d ++ (strVal d x ++ sep) := by
  cases xs with
  | nil => exact ⟨[], by rw [strItemsA]; simp⟩
  | cons y ys => exact ⟨',' :: '\n' :: strItemsA d (y :: ys), by rw [strItemsA]; simp⟩

theorem skipWs_itemsA (d : Nat) (x : Json) (xs : List Json) (G : List Char) :
    ∃ c t, skipWs ('\n' :: (strItemsA d (x :: xs) ++ G)) = c :: t ∧ c ∈ goodHeads := by
  obtain ⟨sep, hsep⟩ := strItemsA_decomp d x xs
  obtain ⟨c, t0, hct, hc⟩ := strVal_head d x
  refine ⟨c, t0 ++ (sep ++ G), ?_, hc⟩
  rw [hsep, hct]
  have hshape : (indChars d ++ ((c :: t0) ++ sep)) ++ G
      = indChars d ++ (c :: (t0 ++ (sep ++ G))) := by simp
  rw [hshape]
  exact skipWs_nl_ind (goodHeads_not_ws hc) d _

theorem strItemsO_decomp (d : Nat) (k : String) (v : Json) (kvs : List (String × Json)) :
    ∃ sep, strItemsO d ((k, v) :: kvs) =
      indChars d ++ ('"' :: (escStr k.data ++ ('"' :: (':' :: (' ' :: (strVal d v ++ sep)))))) := by
  cases kvs with
  | nil => exact ⟨[], by rw [strItemsO]; simp⟩
  | cons kv2 kvs => exact ⟨',' :: '\n' :: strItemsO d (kv2 :: kvs), by rw [strItemsO]; simp⟩

theorem skipWs_itemsO (d : Nat) (kv : String × Json) (kvs : List (String × Json))
    (G : List Char) :
    ∃ t, skipWs ('\n' :: (strItemsO d (kv :: kvs) ++ G)) = '"' :: t := by
  obtain ⟨k, v⟩ := kv
  obtain ⟨sep, hsep⟩ := strItemsO_decomp d k v kvs
  rw [hsep]
  have hshape : (indChars d ++
        ('"' :: (escStr k.data ++ ('"' :: (':' :: (' ' :: (strVal d v ++ sep))))))) ++ G
      = indChars d ++
        ('"' :: (escStr k.data ++ ('"' :: (':' :: (' ' :: (strVal d v ++ (sep ++ G))))))) := by
    simp
  rw [hshape]
  exact ⟨_, skipWs_nl_ind (by decide) d _⟩

theorem parseValCore_lbracket (f : Nat) (rest : List Char) :
    parseValCore f ('[' :: rest) =
      match skipWs rest with
      | ']' :: r => some (Json.arr [], r)
      | _ =>
        match parseArrItems f rest with
        | some (xs, r) => some (Json.arr xs, r)
        | none => none := by
  rw [parseValCore.eq_def]
  simp

theorem parseValCore_lbrace (f : Nat) (rest : List Char) :
    parseValCore f ('{' :: rest) =
      match skipWs rest with
      | '}' :: r => some (Json.obj [], r)
      | _ =>
        match parseObjItems f rest with
        | some (kvs, r) => some (Json.obj kvs, r)
        | none => none := by
  rw [parseValCore.eq_def]
  simp

theorem parseArrItems_succ (f : Nat) (cs : List Char) :
    parseArrItems (f + 1) cs =
      match parseVal f cs with
      | none => none
      | some (j, r) =>
        match skipWs r with
        | ',' :: r2 =>
          match parseArrItems f r2 with
          | some (js, r3) => some (j :: js, r3)
          | none => none
        | ']' :: r2 => some ([j], r2)
        | _ => none := by
  rw [parseArrItems.eq_def]

theorem parseObjItems_succ (f : Nat) (cs : List Char) :
    parseObjItems (f + 1) cs =
      match skipWs cs with
      | '"' :: r =>
        match parseStrBody r with
        | none => none
        | some (k, r2) =>
          match skipWs r2 with
          | ':' :: r3 =>
            match parseVal f r3 with
            | none => none
            | some (v, r4) =>
              match skipWs r4 with
              | ',' :: r5 =>
                match parseObjItems f r5 with
                | some (kvs, r6) => some ((String.mk k, v) :: kvs, r6)
                | none => none
              | '}' :: r5 => some ([(String.mk k, v)], r5)
              | _ => none
          | _ => none
      | _ => none := by
  rw [parseObjItems.eq_def]

set_option maxHeartbeats 1000000 in
/-- The serializer/parser roundtrip, by induction on parser fuel: a
serialized value parses back to itself from any fuel at least its nesting
size, with leading whitespace and a non-digit-leading remainder. -/
theorem parseRound (fuel : Nat) :
    (∀ (j : Json) (d : Nat) (ws rest : List Char), ws.all isWs = true →
        noDigitHead rest = true → jsize j ≤ fuel →
        parseVal fuel (ws ++ (strVal d j ++ rest)) = some (j, rest))
  ∧ (∀ (xs : List Json) (d dc : Nat) (ws rest : List Char), xs ≠ [] →
        ws.all isWs = true → jsizeL xs ≤ fuel →
        parseArrItems fuel (ws ++ (strItemsA d xs ++ '\n' :: (indChars dc ++ ']' :: rest)))
          = some (xs, rest))
  ∧ (∀ (kvs : List (String × Json)) (d dc : Nat) (ws rest : List Char), kvs ≠ [] →
        ws.all isWs = true → jsizeO kvs ≤ fuel →
        parseObjItems fuel (ws ++ (strItemsO d kvs ++ '\n' :: (indChars dc ++ '}' :: rest)))
          = some (kvs, rest)) := by
  induction fuel with
  | zero =>
    refine ⟨?_, ?_, ?_⟩
    · intro j d ws rest _ _ hsz
      have := jsize_pos j
      omega
    · intro xs d dc ws rest hne _ hsz
      cases xs with
      | nil => exact absurd rfl hne
      | cons x xs => rw [jsizeL] at hsz; omega
    · intro kvs d dc ws rest hne _ hsz
      cases kvs with
      | nil => exact absurd rfl hne
      | cons kv kvs => obtain ⟨k, v⟩ := kv; rw [jsizeO] at hsz; omega
  | succ f ih =>
    obtain ⟨ihV, ihA, ihO⟩ := ih
    refine ⟨?_, ?_, ?_⟩
    · -- one value
      intro j d ws rest hws hrest hsz
      have hskip : skipWs (ws ++ (strVal d j ++ rest)) = strVal d j ++ rest := by
        rw [skipWs_append hws]
        obtain ⟨c, t, hct, hc⟩ := strVal_head d j
        rw [hct, List.cons_append, skipWs_cons_not (goodHeads_not_ws hc),
          ← List.cons_append, ← hct]
      rw [parseVal, hskip]
      cases j with
      | null =>
        rw [strVal]
        simp only [List.cons_append, List.nil_append]
        rw [parseValCore.eq_def]
        simp
      | bool b =>
        cases b with
        | true =>
          rw [show strVal d (Json.bool true) = ['t', 'r', 'u', 'e'] from rfl]
          simp only [List.cons_append, List.nil_append]
          rw [parseValCore.eq_def]
          simp
        | false =>
          rw [show strVal d (Json.bool false) = ['f', 'a', 'l', 's', 'e'] from rfl]
          simp only [List.cons_append, List.nil_append]
          rw [parseValCore.eq_def]
          simp
      | num i =>
        rw [strVal]
        exact parseValCore_int f hrest i
      | str s =>
        rw [strVal]
        have hn : (('"' :: (escStr s.data ++ ['"'])) ++ rest)
            = '"' :: (escStr s.data ++ '"' :: rest) := by simp
        rw [hn, parseValCore.eq_def]
        simp [parseStrBody_esc]
      | arr xs =>
        cases xs with
        | nil =>
          rw [strVal]
          simp only [List.cons_append, List.nil_append]
          rw [parseValCore.eq_def]
          simp [skipWs, isWs]
        | cons x xs =>
          rw [strVal]
          have hn : (('[' :: '\n' :: (strItemsA (d + 1) (x :: xs) ++ '\n' ::
                (indChars d ++ [']']))) ++ rest)
              = '[' :: ('\n' :: (strItemsA (d + 1) (x :: xs) ++ '\n' ::
                (indChars d ++ (']' :: rest)))) := by simp
          rw [hn, parseValCore_lbracket]
          obtain ⟨c0, t0, hsk, hc0⟩ :=
            skipWs_itemsA (d + 1) x xs ('\n' :: (indChars d ++ (']' :: rest)))
          have hitems := ihA (x :: xs) (d + 1) d ['\n'] rest (by simp) (by decide)
            (by rw [jsize] at hsz; omega)
          simp only [List.singleton_append] at hitems
          rw [hsk]
          split
          · rename_i r heq
            injection heq with h1 h2
            exact absurd h1 (goodHeads_ne_rbracket hc0)
          · simp [hitems]
      | obj kvs =>
        cases kvs with
        | nil =>
          rw [strVal]
          simp only [List.cons_append, List.nil_append]
          rw [parseValCore.eq_def]
          simp [skipWs, isWs]
        | cons kv kvs =>
          rw [strVal]
          have hn : (('{' :: '\n' :: (strItemsO (d + 1) (kv :: kvs) ++ '\n' ::
                (indChars d ++ ['}']))) ++ rest)
              = '{' :: ('\n' :: (strItemsO (d + 1) (kv :: kvs) ++ '\n' ::
                (indChars d ++ ('}' :: rest)))) := by simp
          rw [hn, parseValCore_lbrace]
          obtain ⟨t0, hsk⟩ :=
            skipWs_itemsO (d + 1) kv kvs ('\n' :: (indChars d ++ ('}' :: rest)))
          have hitems := ihO (kv :: kvs) (d + 1) d ['\n'] rest (by simp) (by decide)
            (by rw [jsize] at hsz; omega)
          simp only [List.singleton_append] at hitems
          rw [hsk]
          split
          · rename_i r heq
            injection heq with h1 h2
            exact absurd h1 (by decide)
          · simp [hitems]
    · -- array elements
      intro xs d dc ws rest hne hws hsz
      cases xs with
      | nil => exact absurd rfl hne
      | cons x xs =>
        rw [parseArrItems_succ]
        cases xs with
        | nil =>
          have hval := ihV x d (ws ++ indChars d)
            ('\n' :: (indChars dc ++ ']' :: rest))
            (by simp [List.all_append, hws, indChars_all_ws])
            (noDigitHead_cons (by decide) _)
            (by rw [jsizeL, jsizeL] at hsz; omega)
          rw [strItemsA]
          simp only [List.append_assoc] at hval ⊢
          simp only [hval]
          have hbrk : isWs ']' = false := by decide
          rw [skipWs_nl_ind hbrk dc rest]
          rfl
        | cons y ys =>
          have hval := ihV x d (ws ++ indChars d)
            (',' :: '\n' :: (strItemsA d (y :: ys) ++ '\n' :: (indChars dc ++ ']' :: rest)))
            (by simp [List.all_append, hws, indChars_all_ws])
            (noDigitHead_cons (by decide) _)
            (by rw [jsizeL] at hsz; omega)
          rw [strItemsA]
          simp only [List.append_assoc, List.cons_append] at hval ⊢
          simp only [hval]
          have hcomma : isWs ',' = false := by decide
          rw [skipWs_cons_not hcomma]
          have hitems := ihA (y :: ys) d dc ['\n'] rest (by simp) (by decide)
            (by rw [jsizeL] at hsz; omega)
          simp only [List.singleton_append] at hitems
          simp [hitems]
    · -- object members
      intro kvs d dc ws rest hne hws hsz
      cases kvs with
      | nil => exact absurd rfl hne
      | cons kv kvs =>
        obtain ⟨k, v⟩ := kv
        rw [parseObjItems_succ]
        cases kvs with
        | nil =>
          rw [strItemsO]
          have hsk : skipWs (ws ++ ((indChars d ++ ('"' :: (escStr k.data ++ ['"'])) ++
                ':' :: ' ' :: strVal d v) ++ '\n' :: (indChars dc ++ '}' :: rest)))
              = '"' :: (escStr k.data ++ '"' :: (':' :: (' ' :: (strVal d v ++
                  '\n' :: (indChars dc ++ '}' :: rest))))) := by
            rw [skipWs_append hws]
            have hshape : ((indChars d ++ ('"' :: (escStr k.data ++ ['"'])) ++
                  ':' :: ' ' :: strVal d v) ++ '\n' :: (indChars dc ++ '}' :: rest))
                = indChars d ++ ('"' :: (escStr k.data ++ '"' :: (':' :: (' ' ::
                    (strVal d v ++ '\n' :: (indChars dc ++ '}' :: rest)))))) := by
              simp
            rw [hshape, skipWs_append (indChars_all_ws d)]
            exact skipWs_cons_not (by decide) _
          rw [hsk]
          simp only [parseStrBody_esc]
          have hcolon : isWs ':' = false := by decide
          rw [skipWs_cons_not hcolon]
          have hval := ihV v d [' ']
            ('\n' :: (indChars dc ++ '}' :: rest))
            (by decide)
            (noDigitHead_cons (by decide) _)
            (by rw [jsizeO, jsizeO] at hsz; omega)
          simp only [List.singleton_append] at hval
          simp only [hval]
          have hbrc : isWs '}' = false := by decide
          rw [skipWs_nl_ind hbrc dc rest]
          rfl
        | cons kv2 kvs =>
          rw [strItemsO]
          have hsk : skipWs (ws ++ ((indChars d ++ ('"' :: (escStr k.data ++ ['"'])) ++
                ':' :: ' ' :: strVal d v ++ ',' :: '\n' :: strItemsO d (kv2 :: kvs)) ++
                '\n' :: (indChars dc ++ '}' :: rest)))
              = '"' :: (escStr k.data ++ '"' :: (':' :: (' ' :: (strVal d v ++
                  ',' :: '\n' :: (strItemsO d (kv2 :: kvs) ++
                    '\n' :: (indChars dc ++ '}' :: rest)))))) := by
            rw [skipWs_append hws]
            have hshape : ((indChars d ++ ('"' :: (escStr k.data ++ ['"'])) ++
                  ':' :: ' ' :: strVal d v ++ ',' :: '\n' :: strItemsO d (kv2 :: kvs)) ++
                  '\n' :: (indChars dc ++ '}' :: rest))
                = indChars d ++ ('"' :: (escStr k.data ++ '"' :: (':' :: (' ' ::
                    (strVal d v ++ ',' :: '\n' :: (strItemsO d (kv2 :: kvs) ++
                      '\n' :: (indChars dc ++ '}' :: rest))))))) := by
              simp
            rw [hshape, skipWs_append (indChars_all_ws d)]
            exact skipWs_cons_not (by decide) _
          rw [hsk]
          simp only [parseStrBody_esc]
          have hcolon : isWs ':' = false := by decide
          rw [skipWs_cons_not hcolon]
          have hval := ihV v d [' ']
            (',' :: '\n' :: (strItemsO d (kv2 :: kvs) ++ '\n' :: (indChars dc ++ '}' :: rest)))
            (by decide)
            (noDigitHead_cons (by decide) _)
            (by rw [jsizeO] at hsz; omega)
          simp only [List.singleton_append] at hval
          simp only [hval]
          have hcomma : isWs ',' = false := by decide
          rw [skipWs_cons_not hcomma]
          have hitems := ihO (kv2 :: kvs) d dc ['\n'] rest (by simp) (by decide)
            (by rw [jsizeO] at hsz; omega)
          simp only [List.singleton_append] at hitems
          simp [hitems]

/-- Roundtrip at the `String` level: parsing a pretty-printed JSON value
returns the value. -/
theorem parseJson_stringify (j : Json) :
    parseJson (String.mk (strVal 0 j)) = some j := by
  have hfuel : jsize j ≤ (strVal 0 j).length + 1 := jsize_le_strVal 0 j
  have h := (parseRound ((strVal 0 j).length + 1)).1 j 0 [] [] rfl rfl hfuel
  simp only [List.nil_append, List.append_nil] at h
  rw [parseJson]
  simp only [show (String.mk (strVal 0 j)).data = strVal 0 j from rfl]
  simp only [h]
  simp [skipWs]

/-! ## The editor components

`PE` models `PipelineEditor` (src/studio/pipeline_canvas_editor.tsx) and
`EPE` models `EnhancedPipelineEditor` (src/unnamed/part_001).  Rendering
concerns (colors, icons, zoom, pan, canvas nodes, view mode) are omitted;
the document, selection, run flag, error and log state are embedded. -/

/-- One entry of the execution log: `{level, message, timestamp}`. -/
structure LogEntry where
  level : String
  message : String
  timestamp : String
deriving DecidableEq, Repr

/-- `array.slice(-cap)` for `cap ≥ 1`: the `cap` most recent elements. -/
def takeLast {α : Type} (cap : Nat) (l : List α) : List α :=
  l.drop (l.length - cap)

/-- The `services` member of a document as a JS object member list
(empty for a document without an object-valued `services` field). -/
def servicesOf (spc : Json) : List (String × Json) :=
  match spc.getField "services" with
  | some (Json.obj kvs) => kvs
  | _ => []

/-- Truthiness of the JS access `j.k` (`undefined` when absent is falsy). -/
def fieldTruthy (j : Json) (k : String) : Bool :=
  match j.getField k with
  | some v => v.truthy
  | none => false

/-- A decimal numeral as a string (for interpolating `Date.now()` etc.). -/
def natStr (n : Nat) : String :=
  String.mk (natToChars n)

namespace PE

/-- A `SERVICE_TYPES` entry: palette label and default spec (colors and
icons are rendering-only and omitted). -/
structure TypeConfig where
  label : String
  defaultSpec : Json

/-- The `SERVICE_TYPES` table of `PipelineEditor`. -/
def SERVICE_TYPES : String → Option TypeConfig
  | "connector" => some ⟨"Connector",
      Json.obj [("url", Json.str ""), ("outputKey", Json.str "")]⟩
  | "processor" => some ⟨"Processor",
      Json.obj [("inputKey", Json.str ""), ("outputKey", Json.str ""),
        ("transform", Json.arr [])]⟩
  | "monitor" => some ⟨"Monitor",
      Json.obj [("checks", Json.arr []), ("emit", Json.str "onChange")]⟩
  | "adapter" => some ⟨"Adapter",
      Json.obj [("kind", Json.str "webhook"), ("url", Json.str "")]⟩
  | "aggregator" => some ⟨"Aggregator",
      Json.obj [("inputKey", Json.str ""),
        ("window", Json.obj [("size_sec", Json.num 30)])]⟩
  | "vault" => some ⟨"Vault",
      Json.obj [("provider", Json.str ""), ("secrets", Json.arr [])]⟩
  | _ => none

/-- The component state of `PipelineEditor`. -/
structure EditorState where
  spc : Json
  selectedService : Option String
  isRunning : Bool
  executionLog : List LogEntry
  jsonError : Option String
deriving DecidableEq

/-- `addLog(level, message)`: append an entry stamped with the current
time and keep the 50 most recent entries (`slice(-50)`). -/
def addLog (st : EditorState) (level message timestamp : String) : EditorState :=
  { st with executionLog :=
      takeLast 50 (st.executionLog ++ [⟨level, message, timestamp⟩]) }

/-- `addService(type)`: insert a fresh service under id `type-Date.now()`
with the type's default spec and status `stopped`, and select it.  The
palette only offers the six configured types; an unknown type is a no-op
here (in JS it would fault on `SERVICE_TYPES[type].label`). -/
def addService (st : EditorState) (type : String) (now : Nat) : EditorState :=
  match SERVICE_TYPES type with
  | none => st
  | some cfg =>
    let id := type ++ "-" ++ natStr now
    let svc := Json.obj [
      ("id", Json.str id),
      ("type", Json.str type),
      ("title", Json.str (cfg.label ++ " " ++ natStr ((servicesOf st.spc).length + 1))),
      ("spec", cfg.defaultSpec),
      ("status", Json.str "stopped"),
      ("position", Json.obj [("x", Json.num 100), ("y", Json.num 100)])]
    { st with
        spc := st.spc.setField "services" (Json.obj (Json.setKey id svc (servicesOf st.spc))),
        selectedService := some id }

/-- The body of the `importSPC` reader callback on file content `s`:
`JSON.parse`, then throw unless both `spc_version` and `services` are
truthy. -/
def importSPCResult (s : String) : Except String Json :=
  match parseJson s with
  | none => Except.error "Unexpected token"
  | some imported =>
    if !fieldTruthy imported "spc_version" || !fieldTruthy imported "services" then
      Except.error "Invalid SPC format"
    else
      Except.ok imported

/-- `importSPC(event)`: read the chosen file (`none` when no file was
selected) and either replace the document wholesale or record the error. -/
def importSPC (st : EditorState) (file : Option String) (now : String) : EditorState :=
  match file with
  | none => st
  | some s =>
    match importSPCResult s with
    | Except.ok imported =>
        addLog { st with spc := imported, jsonError := none }
          "info" "SPC imported successfully" now
    | Except.error msg =>
        addLog { st with jsonError := some msg }
          "error" ("Import failed: " ++ msg) now

/-- The file content `exportSPC` downloads: `JSON.stringify(spc, null, 2)`. -/
def exportSPC (st : EditorState) : String :=
  String.mk (strVal 0 st.spc)

/-- `tickOnce()`: only logs. -/
def tickOnce (st : EditorState) (now : String) : EditorState :=
  addLog st "info" "Single tick executed" now

end PE

namespace EPE

/-- The component state of `EnhancedPipelineEditor` (zoom and pan are
rendering-only and omitted). -/
structure EditorState where
  spc : Json
  selectedNode : Option String
  isRunning : Bool
  logs : List LogEntry
deriving DecidableEq

/-- `addLog(level, message)`: append an entry stamped with the current
time and keep the 30 most recent entries (`slice(-30)`). -/
def addLog (st : EditorState) (level message timestamp : String) : EditorState :=
  { st with logs := takeLast 30 (st.logs ++ [⟨level, message, timestamp⟩]) }

/-- `getDefaultSpec(type)`: the defaults table, with its `|| {}` fallback
for unknown types.  The template strings interpolate the requested type
(`` `${type}_data` ``), shown here evaluated at each table key since the
table is always indexed by the same `type` that built it. -/
def getDefaultSpec : String → Json
  | "connector" => Json.obj [("url", Json.str "https://api.example.com/data"),
      ("outputKey", Json.str "connector_data")]
  | "processor" => Json.obj [("inputKey", Json.str ""),
      ("outputKey", Json.str "processor_output"), ("transform", Json.arr [])]
  | "monitor" => Json.obj [("checks", Json.arr []), ("emit", Json.str "onChange")]
  | "adapter" => Json.obj [("kind", Json.str "webhook"),
      ("url", Json.str "https://hooks.example.com/webhook")]
  | "aggregator" => Json.obj [("inputKey", Json.str ""),
      ("window", Json.obj [("size_sec", Json.num 30)])]
  | "vault" => Json.obj [("provider", Json.str "hashicorp-vault"),
      ("secrets", Json.arr [])]
  | _ => Json.obj []

/-- `addService(type)`: insert a fresh service under id `type-Date.now()`
with the type's default spec and status `stopped`, then log. -/
def addService (st : EditorState) (type : String) (now : Nat) (nowTs : String) :
    EditorState :=
  let id := type ++ "-" ++ natStr now
  let existingCount := ((servicesOf st.spc).filter
    (fun kv => kv.2.getField "type" == some (Json.str type))).length
  let svc := Json.obj [
    ("id", Json.str id),
    ("type", Json.str type),
    ("title", Json.str (type ++ " " ++ natStr (existingCount + 1))),
    ("spec", getDefaultSpec type),
    ("status", Json.str "stopped"),
    ("position", Json.obj [("x", Json.num 300), ("y", Json.num 200)])]
  addLog
    { st with
        spc := st.spc.setField "services" (Json.obj (Json.setKey id svc (servicesOf st.spc))) }
    "info" ("Added " ++ type ++ " service: " ++ id) nowTs

/-- `importSPC(event)`: read the chosen file; no shape validation at all —
any parseable JSON replaces the document. -/
def importSPC (st : EditorState) (file : Option String) (now : String) : EditorState :=
  match file with
  | none => st
  | some s =>
    match parseJson s with
    | some imported =>
        addLog { st with spc := imported } "success" "SPC imported successfully" now
    | none =>
        addLog st "error" "Import failed" now

/-- The file content `exportSPC` downloads: `JSON.stringify(spc, null, 2)`. -/
def exportSPC (st : EditorState) : String :=
  String.mk (strVal 0 st.spc)

/-- `tickOnce()`: only logs. -/
def tickOnce (st : EditorState) (now : String) : EditorState :=
  addLog st "info" "Manual tick executed" now

/-- The per-service update inside `runPipeline`'s interval body: a service
whose `status` is `"running"` gets `lastRun` set to the current ISO time;
any other service object is left as is. -/
def tickService (nowIso : String) (svc : Json) : Json :=
  if svc.getField "status" = some (Json.str "running") then
    svc.setField "lastRun" (Json.str nowIso)
  else
    svc

/-- The `setSpc` update of one interval firing: apply `tickService` to
every entry of the services map. -/
def tickServices (spc : Json) (nowIso : String) : Json :=
  spc.setField "services"
    (Json.obj ((servicesOf spc).map (fun kv => (kv.1, tickService nowIso kv.2))))

/-- The `runPipeline` interval state: the closure's `tick` counter, whether
the interval is still scheduled (`clearInterval` not yet called), and the
component state. -/
structure SchedState where
  tick : Nat
  intervalActive : Bool
  st : EditorState
deriving DecidableEq

/-- `runPipeline()`: set `isRunning`, log, and schedule the interval with
the closure's tick counter at 0. -/
def runPipeline (st : EditorState) (now : String) : SchedState :=
  { tick := 0, intervalActive := true,
    st := addLog { st with isRunning := true } "success" "Pipeline execution started" now }

/-- One firing of the interval callback (a no-op once the interval has been
cleared): increment the tick counter, log, stamp running services; after
the fifth tick clear the interval, reset `isRunning` and log completion. -/
def intervalFire (s : SchedState) (now : String) : SchedState :=
  if s.intervalActive = false then s
  else
    let t := s.tick + 1
    let st1 := addLog s.st "info" ("Tick " ++ natStr t ++ " - Processing services...") now
    let st2 := { st1 with spc := tickServices st1.spc now }
    if 5 ≤ t then
      { tick := t, intervalActive := false,
        st := addLog { st2 with isRunning := false }
          "success" "Pipeline execution completed" now }
    else
      { tick := t, intervalActive := true, st := st2 }

/-- `stopPipeline()`: reset `isRunning` and log.  The interval scheduled by
`runPipeline` is not cleared. -/
def stopPipeline (s : SchedState) (now : String) : SchedState :=
  { s with st := addLog { s.st with isRunning := false } "warn" "Pipeline stopped by user" now }

/-- An event hitting the scheduler after `start`: an interval firing or a
`stopPipeline` click. -/
inductive SchedAct where
  | fire (now : String)
  | stop (now : String)
deriving DecidableEq

/-- Apply one scheduler event. -/
def schedStep (s : SchedState) : SchedAct → SchedState
  | .fire now => intervalFire s now
  | .stop now => stopPipeline s now

/-- Apply a sequence of scheduler events. -/
def schedRun (s : SchedState) (acts : List SchedAct) : SchedState :=
  acts.foldl schedStep s

/-- The number of interval firings in an event sequence. -/
def countFires (acts : List SchedAct) : Nat :=
  (acts.filter (fun a => match a with | .fire _ => true | .stop _ => false)).length

end EPE

namespace Kernel

/-!
Modelled from the spec: the execution kernel — tick scheduler, handler
dispatch, state patch applier and hash-chained audit ledger (spec sections
3, 4.2 to 4.6) — is not among the sources under `src/`; the editors invoke
it as an external engine (`"In production, this would call the EDT
engine"`).  The definitions below follow the spec's words.
-/

/-- Modelled from the spec (§3): a service of the document. -/
structure KService where
  id : String
  type : String
  status : String
  spec : Json
deriving DecidableEq

/-- Modelled from the spec (§3): a state patch, a set of shared-state
key/value mutations. -/
abbrev StatePatch := List (String × Json)

/-- Modelled from the spec (§3): an observational event. -/
structure KEvent where
  name : String
  forId : String
  level : String
  message : String
  atTick : Nat
deriving DecidableEq

/-- Modelled from the spec (§3): one hash-chained audit record. -/
structure AuditRecord where
  tick : Nat
  patch : StatePatch
  events : List KEvent
  prevHash : Nat
  hash : Nat
deriving DecidableEq

/-- Modelled from the spec (§3): the SPC document held by the kernel. -/
structure KDoc where
  version : String
  services : List (String × KService)
  state : List (String × Json)
deriving DecidableEq

/-- Modelled from the spec (§4.2, §5): the outcome of handler execution
for a given tick and service id — a pure function once external I/O
results are fixed. -/
def HandlerIO : Type := Nat → String → StatePatch × List KEvent

/-- Serialization of a record's content for hashing. -/
def serializeRecord (tickNo : Nat) (patch : StatePatch) (events : List KEvent) :
    List Nat :=
  tickNo :: (strVal 0 (Json.obj patch)).map Char.toNat ++
    events.flatMap (fun e =>
      e.atTick :: (e.name ++ e.forId ++ e.level ++ e.message).data.map Char.toNat)

/-- Modelled from the spec (§4.6): the chain hash
`H(prevHash ++ serialize(tick, patch, events))`, with `H` a concrete
64-bit fold. -/
def hashRecord (prevHash tickNo : Nat) (patch : StatePatch) (events : List KEvent) :
    Nat :=
  (serializeRecord tickNo patch events).foldl
    (fun a b => (a * 1000003 + b) % (2 ^ 64)) prevHash

/-- Modelled from the spec (§4.4): apply all patches of one tick to the
shared state as one step, last-committed-in-scan-order winning. -/
def applyPatch (state : List (String × Json)) (patch : StatePatch) :
    List (String × Json) :=
  patch.foldl (fun st kv => Json.setKey kv.1 kv.2 st) state

/-- Modelled from the spec (§4.3, default column): after firing, an adapter
auto-stops and the other types stay running (modifier flags are not part of
this model). -/
def lifecycleAfterFire (s : KService) : KService :=
  if s.type = "adapter" then { s with status := "stopped" } else s

/-- Modelled from the spec (§4.5): one `tick()` — scan running services,
collect handler results in scan order, apply the merged patch atomically,
update lifecycles of fired services, append one audit record. -/
def tick (io : HandlerIO) (doc : KDoc) (tickNo : Nat) (ledger : List AuditRecord) :
    KDoc × List AuditRecord × List KEvent :=
  let running := doc.services.filter (fun kv => kv.2.status = "running")
  let results := running.map (fun kv => io tickNo kv.1)
  let patch := results.flatMap (fun r => r.1)
  let events := results.flatMap (fun r => r.2)
  let newState := applyPatch doc.state patch
  let newServices := doc.services.map (fun kv =>
    if kv.2.status = "running" then (kv.1, lifecycleAfterFire kv.2) else kv)
  let prevHash := (ledger.getLast?).elim 0 (fun r => r.hash)
  let rec0 : AuditRecord :=
    ⟨tickNo, patch, events, prevHash, hashRecord prevHash tickNo patch events⟩
  ({ doc with state := newState, services := newServices }, ledger ++ [rec0], events)

/-- Run `n` ticks from a given tick number, accumulating ledger and
events. -/
def runFrom (io : HandlerIO) :
    Nat → KDoc → Nat → List AuditRecord → List KEvent →
      KDoc × List AuditRecord × List KEvent
  | 0, doc, _, ledger, events => (doc, ledger, events)
  | n + 1, doc, tickNo, ledger, events =>
    let r := tick io doc tickNo ledger
    runFrom io n r.1 (tickNo + 1) r.2.1 (events ++ r.2.2)

/-- Modelled from the spec (§4.5, §8): a run of `n` ticks over a freshly
loaded document, with a fresh (genesis) ledger. -/
def run (io : HandlerIO) (doc : KDoc) (n : Nat) :
    KDoc × List AuditRecord × List KEvent :=
  runFrom io n doc 0 [] []

end Kernel


/-! ## Support lemmas on the document operations -/

theorem lookup_setKey_self (k : String) (v : Json) (l : List (String × Json)) :
    (Json.setKey k v l).lookup k = some v := by
  induction l with
  | nil => simp [Json.setKey, List.lookup]
  | cons kv rest ih =>
    obtain ⟨k', v'⟩ := kv
    rw [Json.setKey]
    by_cases h : k' = k
    · rw [if_pos h]
      simp [List.lookup]
    · rw [if_neg h]
      simp only [List.lookup, show (k == k') = false from by simp [Ne.symm h]]
      exact ih

theorem lookup_setKey_ne {k' k : String} (h : k' ≠ k) (v : Json)
    (l : List (String × Json)) :
    (Json.setKey k v l).lookup k' = l.lookup k' := by
  induction l with
  | nil =>
    simp only [Json.setKey, List.lookup, show (k' == k) = false from by simp [h]]
  | cons kv rest ih =>
    obtain ⟨k1, v1⟩ := kv
    rw [Json.setKey]
    by_cases h1 : k1 = k
    · rw [if_pos h1]
      subst h1
      simp only [List.lookup, show (k' == k1) = false from by simp [h]]
    · rw [if_neg h1]
      simp only [List.lookup]
      by_cases h2 : k' = k1
      · simp only [show (k' == k1) = true from by simp [h2]]
      · simp only [show (k' == k1) = false from by simp [h2]]
        exact ih

theorem lookup_map_values (g : Json → Json) (k : String) (l : List (String × Json)) :
    (l.map (fun kv => (kv.1, g kv.2))).lookup k = (l.lookup k).map g := by
  induction l with
  | nil => simp [List.lookup]
  | cons kv rest ih =>
    obtain ⟨k1, v1⟩ := kv
    simp only [List.map, List.lookup]
    by_cases h : k = k1
    · simp only [show (k == k1) = true from by simp [h]]
      rfl
    · simp only [show (k == k1) = false from by simp [h]]
      exact ih

theorem servicesOf_obj_setField (kvs l : List (String × Json)) :
    servicesOf (Json.setField (Json.obj kvs) "services" (Json.obj l)) = l := by
  simp only [servicesOf, Json.setField, Json.getField]
  rw [lookup_setKey_self]

theorem takeLast_length_le {α : Type} (cap : Nat) (l : List α) :
    (takeLast cap l).length ≤ cap := by
  simp only [takeLast, List.length_drop]
  omega

theorem takeLast_append_one {α : Type} {cap : Nat} (hcap : 1 ≤ cap) (l : List α) (e : α) :
    takeLast cap (takeLast cap l ++ [e]) = takeLast cap (l ++ [e]) := by
  by_cases h : l.length < cap
  · rw [show takeLast cap l = l from by
      simp [takeLast, show l.length - cap = 0 by omega]]
  · simp only [takeLast, List.length_append, List.length_drop, List.length_cons,
      List.length_nil]
    rw [List.drop_append_of_le_length (by simp [List.length_drop]; omega),
      List.drop_append_of_le_length (by omega), List.drop_drop]
    congr 2
    omega

theorem foldl_takeLast {α : Type} {cap : Nat} (hcap : 1 ≤ cap) (es l : List α) :
    es.foldl (fun acc e => takeLast cap (acc ++ [e])) (takeLast cap l)
      = takeLast cap (l ++ es) := by
  induction es generalizing l with
  | nil => simp [takeLast]
  | cons e es ih =>
    simp only [List.foldl_cons]
    rw [takeLast_append_one hcap, ih (l ++ [e])]
    simp

/-! ## The spec's load-validity predicate (claim C1) -/

/-- Modelled from the spec (§3, §4.2): does a `spec` object match the
schema of its declared `type`?  Only fields the spec names explicitly are
required (`connector.spec.url`, `processor.spec.inputKey/outputKey/pipes`,
monitor `checks`/`emit`, adapter `kind`, aggregator `inputKey`/`window`,
vault `secrets`); the spec names no required field for `router` and
`iterator`. -/
def specTypeSchema (type : String) (spec : Json) : Bool :=
  match type with
  | "connector" => (spec.getField "url").isSome
  | "processor" =>
      (spec.getField "inputKey").isSome && (spec.getField "outputKey").isSome &&
        (spec.getField "pipes").isSome
  | "monitor" => (spec.getField "checks").isSome && (spec.getField "emit").isSome
  | "adapter" => (spec.getField "kind").isSome
  | "aggregator" => (spec.getField "inputKey").isSome && (spec.getField "window").isSome
  | "router" => true
  | "iterator" => true
  | "vault" => (spec.getField "secrets").isSome
  | _ => false

/-- Modelled from the spec (§3, §6): load validity of a parsed document —
`spc_version` present and a recognized schema version (the only version in
evidence is `"1.0"`), `services` present as a map, every service's `spec`
matching its declared `type`'s schema. -/
def specValidDoc (j : Json) : Bool :=
  (j.getField "spc_version" == some (Json.str "1.0")) &&
    (match j.getField "services" with
     | some (Json.obj svcs) =>
        svcs.all (fun kv =>
          match kv.2.getField "type", kv.2.getField "spec" with
          | some (Json.str t), some sp => specTypeSchema t sp
          | _, _ => false)
     | _ => false)

/-- A parseable document whose version is not a recognized schema version
(and so is invalid per the spec) but which `PipelineEditor`'s import
accepts. -/
def c1doc : Json :=
  Json.obj [("spc_version", Json.str "0.9"), ("services", Json.obj [])]

/-- C1 counterexample: the document `{spc_version: "0.9", services: {}}`
is invalid per the spec (unrecognized schema version) yet `importSPC`
accepts it, refuting "load rejects ... a document whose `spc_version` is
not a recognized schema version ... every other document is accepted" as a
characterization of the code. -/
theorem c1_counterexample :
    PE.importSPCResult (String.mk (strVal 0 c1doc)) = Except.ok c1doc ∧
      specValidDoc c1doc = false := by
  constructor
  · rw [PE.importSPCResult, parseJson_stringify c1doc]
    rfl
  · decide

/-- C1 (amended): loading fails exactly when the input is unparseable or —
in `PipelineEditor` — when the parsed document's `spc_version` or
`services` field is absent or falsy; no schema-version recognition and no
per-type spec check is performed, and `EnhancedPipelineEditor` accepts any
parseable document at all. -/
theorem importSPCResult_parse_some {s : String} {j' : Json} (hp : parseJson s = some j') :
    PE.importSPCResult s =
      if !fieldTruthy j' "spc_version" || !fieldTruthy j' "services" then
        Except.error "Invalid SPC format"
      else Except.ok j' := by
  rw [PE.importSPCResult, hp]

theorem importSPCResult_parse_none {s : String} (hp : parseJson s = none) :
    PE.importSPCResult s = Except.error "Unexpected token" := by
  rw [PE.importSPCResult, hp]

theorem c1_import_validation (s : String) (j : Json) :
    (PE.importSPCResult s = Except.ok j ↔
      (parseJson s = some j ∧ fieldTruthy j "spc_version" = true ∧
        fieldTruthy j "services" = true)) ∧
    (∀ (st : EPE.EditorState) (now : String),
      (EPE.importSPC st (some s) now).spc = (parseJson s).getD st.spc) := by
  constructor
  · cases hp : parseJson s with
    | none =>
      rw [importSPCResult_parse_none hp]
      simp
    | some j' =>
      rw [importSPCResult_parse_some hp]
      by_cases h1 : fieldTruthy j' "spc_version" = true
      · by_cases h2 : fieldTruthy j' "services" = true
        · rw [if_neg (by simp [h1, h2])]
          constructor
          · intro h
            injection h with h
            subst h
            exact ⟨rfl, h1, h2⟩
          · rintro ⟨hj, _, _⟩
            injection hj with hj
            rw [hj]
        · rw [if_pos (by simp [Bool.not_eq_true] at h2; simp [h2])]
          constructor
          · intro h
            exact absurd h (by simp)
          · rintro ⟨hj, _, hs⟩
            injection hj with hj
            subst hj
            exact absurd hs h2
      · rw [if_pos (by simp [Bool.not_eq_true] at h1; simp [h1])]
        constructor
        · intro h
          exact absurd h (by simp)
        · rintro ⟨hj, hv, _⟩
          injection hj with hj
          subst hj
          exact absurd hv h1
  · intro st now
    rw [EPE.importSPC]
    cases hp : parseJson s with
    | none => simp [hp, EPE.addLog]
    | some j' => simp [hp, EPE.addLog]

/-- C4: an import that passes load validation replaces the current
document wholesale — the resulting document is exactly the imported one
(so nothing of the prior document's services, state or metadata can
survive), in both editors. -/
theorem c4_import_replaces (st : PE.EditorState) (st2 : EPE.EditorState)
    (s : String) (j : Json) (now : String)
    (h : PE.importSPCResult s = Except.ok j) :
    (PE.importSPC st (some s) now).spc = j ∧
      (EPE.importSPC st2 (some s) now).spc = j := by
  have hparse : parseJson s = some j := by
    rcases hp : parseJson s with _ | j'
    · rw [importSPCResult_parse_none hp] at h
      exact absurd h (by simp)
    · rw [importSPCResult_parse_some hp] at h
      by_cases hc : (!fieldTruthy j' "spc_version" || !fieldTruthy j' "services") = true
      · rw [if_pos hc] at h
        exact absurd h (by simp)
      · rw [if_neg hc] at h
        injection h with h
        rw [h]
  constructor
  · rw [PE.importSPC, h]
    simp [PE.addLog]
  · rw [EPE.importSPC, hparse]
    simp [EPE.addLog]

/-- C4 witness: importing a concrete valid document over a non-trivial
prior document yields exactly the imported document. -/
theorem c4_import_replaces_witness :
    (PE.importSPC
        ⟨Json.obj [("spc_version", Json.str "1.0"),
          ("meta", Json.obj [("name", Json.str "Old")]),
          ("services", Json.obj [("old-1", Json.obj [("id", Json.str "old-1")])]),
          ("state", Json.obj [("k", Json.num 3)])], none, false, [], none⟩
        (some (String.mk (strVal 0 (Json.obj [("spc_version", Json.str "1.0"),
          ("services", Json.obj []), ("state", Json.obj [("x", Json.num 5)])]))))
        "ts").spc
      = Json.obj [("spc_version", Json.str "1.0"), ("services", Json.obj []),
          ("state", Json.obj [("x", Json.num 5)])] ∧
    (EPE.importSPC
        ⟨Json.obj [("spc_version", Json.str "1.0"),
          ("services", Json.obj [("old-1", Json.obj [("id", Json.str "old-1")])]),
          ("state", Json.obj [])], none, true, []⟩
        (some (String.mk (strVal 0 (Json.obj [("spc_version", Json.str "1.0"),
          ("services", Json.obj []), ("state", Json.obj [("x", Json.num 5)])]))))
        "ts").spc
      = Json.obj [("spc_version", Json.str "1.0"), ("services", Json.obj []),
          ("state", Json.obj [("x", Json.num 5)])] :=
  c4_import_replaces _ _ _ _ "ts"
    (by rw [importSPCResult_parse_some (parseJson_stringify _)]; rfl)

theorem takeLast_getLast {α : Type} {cap : Nat} (hcap : 1 ≤ cap) (l : List α) (e : α) :
    (takeLast cap (l ++ [e])).getLast? = some e := by
  rw [takeLast, List.length_append,
    List.drop_append_of_le_length (by simp only [List.length_cons, List.length_nil]; omega)]
  exact List.getLast?_concat _

/-- C5: an input that fails to load — unparseable, or rejected by the
validation — leaves the current document unchanged, surfaces the failure
as an error (`jsonError` set, an `error` log entry appended) and starts no
run (`isRunning` untouched); likewise in `EnhancedPipelineEditor`, where
only unparseable input fails. -/
theorem c5_failed_import_preserves (st : PE.EditorState) (st2 : EPE.EditorState)
    (s : String) (now : String)
    (h : ∃ m, PE.importSPCResult s = Except.error m) :
    (PE.importSPC st (some s) now).spc = st.spc ∧
    (PE.importSPC st (some s) now).isRunning = st.isRunning ∧
    (∃ m, (PE.importSPC st (some s) now).jsonError = some m) ∧
    (∃ m, (PE.importSPC st (some s) now).executionLog.getLast? =
      some ⟨"error", m, now⟩) ∧
    (parseJson s = none →
      (EPE.importSPC st2 (some s) now).spc = st2.spc ∧
      (EPE.importSPC st2 (some s) now).isRunning = st2.isRunning ∧
      (EPE.importSPC st2 (some s) now).logs.getLast? =
        some ⟨"error", "Import failed", now⟩) := by
  obtain ⟨m, hm⟩ := h
  rw [PE.importSPC, hm]
  refine ⟨by simp [PE.addLog], by simp [PE.addLog], ⟨m, by simp [PE.addLog]⟩,
    ⟨"Import failed: " ++ m, ?_⟩, ?_⟩
  · simp only [PE.addLog]
    exact takeLast_getLast (by omega) _ _
  · intro hp
    rw [EPE.importSPC, hp]
    refine ⟨by simp [EPE.addLog], by simp [EPE.addLog], ?_⟩
    simp only [EPE.addLog]
    exact takeLast_getLast (by omega) _ _

/-- C5 witness: a concrete parseable document missing `services` fails
validation in `PipelineEditor` and leaves document and run flag unchanged. -/
theorem c5_failed_import_preserves_witness :
    (PE.importSPC ⟨Json.obj [("spc_version", Json.str "1.0")], none, false, [], none⟩
        (some (String.mk (strVal 0 (Json.obj [("spc_version", Json.str "1.0")])))) "ts").spc
      = Json.obj [("spc_version", Json.str "1.0")] ∧
    (PE.importSPC ⟨Json.obj [("spc_version", Json.str "1.0")], none, false, [], none⟩
        (some (String.mk (strVal 0 (Json.obj [("spc_version", Json.str "1.0")])))) "ts").isRunning
      = false ∧
    (∃ m, (PE.importSPC ⟨Json.obj [("spc_version", Json.str "1.0")], none, false, [], none⟩
        (some (String.mk (strVal 0 (Json.obj [("spc_version", Json.str "1.0")])))) "ts").jsonError
      = some m) ∧
    (∃ m, (PE.importSPC ⟨Json.obj [("spc_version", Json.str "1.0")], none, false, [], none⟩
        (some (String.mk (strVal 0 (Json.obj [("spc_version", Json.str "1.0")])))) "ts").executionLog.getLast?
      = some ⟨"error", m, "ts"⟩) ∧
    (parseJson (String.mk (strVal 0 (Json.obj [("spc_version", Json.str "1.0")]))) = none →
      (EPE.importSPC ⟨Json.obj [], none, true, []⟩
          (some (String.mk (strVal 0 (Json.obj [("spc_version", Json.str "1.0")])))) "ts").spc
        = Json.obj [] ∧
      (EPE.importSPC ⟨Json.obj [], none, true, []⟩
          (some (String.mk (strVal 0 (Json.obj [("spc_version", Json.str "1.0")])))) "ts").isRunning
        = true ∧
      (EPE.importSPC ⟨Json.obj [], none, true, []⟩
          (some (String.mk (strVal 0 (Json.obj [("spc_version", Json.str "1.0")])))) "ts").logs.getLast?
        = some ⟨"error", "Import failed", "ts"⟩) :=
  c5_failed_import_preserves _ _ _ "ts"
    ⟨"Invalid SPC format",
      by rw [importSPCResult_parse_some (parseJson_stringify _)]; rfl⟩

/-- C6: exporting produces the serialization of the complete current
document (`JSON.stringify(spc, null, 2)` of the whole `spc` object —
version, metadata, services map and accumulated state), and parsing the
exported serialization yields a document equal to the current one, in both
editors. -/
theorem c6_export_roundtrip (st : PE.EditorState) (st2 : EPE.EditorState) :
    PE.exportSPC st = String.mk (strVal 0 st.spc) ∧
    parseJson (PE.exportSPC st) = some st.spc ∧
    EPE.exportSPC st2 = String.mk (strVal 0 st2.spc) ∧
    parseJson (EPE.exportSPC st2) = some st2.spc :=
  ⟨rfl, parseJson_stringify st.spc, rfl, parseJson_stringify st2.spc⟩

/-- C7: a service whose status is not `running` at the start of an
interval tick is left completely unchanged by the tick's service update
(the same service object, so status, spec and all other fields including
`lastRun` are identical). -/
theorem c7_tick_skips_non_running (spc : Json) (now id : String) (svc : Json)
    (hfound : (servicesOf spc).lookup id = some svc)
    (hnr : svc.getField "status" ≠ some (Json.str "running")) :
    (servicesOf (EPE.tickServices spc now)).lookup id = some svc := by
  cases spc with
  | obj okvs =>
    rw [EPE.tickServices, servicesOf_obj_setField, lookup_map_values, hfound,
      Option.map_some', EPE.tickService, if_neg hnr]
  | null => simp [servicesOf, Json.getField, List.lookup] at hfound
  | bool b => simp [servicesOf, Json.getField, List.lookup] at hfound
  | num i => simp [servicesOf, Json.getField, List.lookup] at hfound
  | str s => simp [servicesOf, Json.getField, List.lookup] at hfound
  | arr xs => simp [servicesOf, Json.getField, List.lookup] at hfound

/-- C7 witness: a concrete stopped service is untouched by a tick that
stamps a running one. -/
theorem c7_tick_skips_non_running_witness :
    (servicesOf (EPE.tickServices
      (Json.obj [("services", Json.obj [
        ("a", Json.obj [("id", Json.str "a"), ("status", Json.str "running")]),
        ("b", Json.obj [("id", Json.str "b"), ("status", Json.str "stopped"),
          ("lastRun", Json.str "2020")])])])
      "2026")).lookup "b"
    = some (Json.obj [("id", Json.str "b"), ("status", Json.str "stopped"),
        ("lastRun", Json.str "2020")]) :=
  c7_tick_skips_non_running _ "2026" "b" _ (by decide) (by decide)

/-- C2: two runs of the pipeline on the identical document with identical
handler I/O results produce identical resulting state, identical event
sequences and identical ledger hashes.  (The kernel is modelled from the
spec; it is not among the sources under `src/`.) -/
theorem c2_determinism (io : Kernel.HandlerIO) (doc : Kernel.KDoc) (n : Nat)
    (r1 r2 : Kernel.KDoc × List Kernel.AuditRecord × List Kernel.KEvent)
    (h1 : r1 = Kernel.run io doc n) (h2 : r2 = Kernel.run io doc n) :
    r1.1.state = r2.1.state ∧ r1.2.2 = r2.2.2 ∧
      r1.2.1.map Kernel.AuditRecord.hash = r2.2.1.map Kernel.AuditRecord.hash := by
  subst h1
  subst h2
  exact ⟨rfl, rfl, rfl⟩

/-- C2 witness: two runs over a concrete two-service document with a
concrete handler outcome table agree on state, events and ledger hashes. -/
theorem c2_determinism_witness :
    (Kernel.run (fun t _ => ([("raw", Json.num (Int.ofNat t))], []))
      ⟨"1.0", [("c1", ⟨"c1", "connector", "running", Json.obj []⟩),
        ("a1", ⟨"a1", "adapter", "stopped", Json.obj []⟩)], []⟩ 3).1.state =
    (Kernel.run (fun t _ => ([("raw", Json.num (Int.ofNat t))], []))
      ⟨"1.0", [("c1", ⟨"c1", "connector", "running", Json.obj []⟩),
        ("a1", ⟨"a1", "adapter", "stopped", Json.obj []⟩)], []⟩ 3).1.state ∧
    (Kernel.run (fun t _ => ([("raw", Json.num (Int.ofNat t))], []))
      ⟨"1.0", [("c1", ⟨"c1", "connector", "running", Json.obj []⟩),
        ("a1", ⟨"a1", "adapter", "stopped", Json.obj []⟩)], []⟩ 3).2.2 =
    (Kernel.run (fun t _ => ([("raw", Json.num (Int.ofNat t))], []))
      ⟨"1.0", [("c1", ⟨"c1", "connector", "running", Json.obj []⟩),
        ("a1", ⟨"a1", "adapter", "stopped", Json.obj []⟩)], []⟩ 3).2.2 ∧
    ((Kernel.run (fun t _ => ([("raw", Json.num (Int.ofNat t))], []))
      ⟨"1.0", [("c1", ⟨"c1", "connector", "running", Json.obj []⟩),
        ("a1", ⟨"a1", "adapter", "stopped", Json.obj []⟩)], []⟩ 3).2.1.map
          Kernel.AuditRecord.hash) =
    ((Kernel.run (fun t _ => ([("raw", Json.num (Int.ofNat t))], []))
      ⟨"1.0", [("c1", ⟨"c1", "connector", "running", Json.obj []⟩),
        ("a1", ⟨"a1", "adapter", "stopped", Json.obj []⟩)], []⟩ 3).2.1.map
          Kernel.AuditRecord.hash) :=
  c2_determinism _ _ 3 _ _ rfl rfl

/-- C8: when no service is `running`, one `tick()` leaves the shared state
(and the services) unchanged, appends exactly one audit record carrying an
empty patch and no events for that tick number, and emits no events.
(The kernel is modelled from the spec; it is not among the sources under
`src/`.) -/
theorem c8_noop_tick (io : Kernel.HandlerIO) (doc : Kernel.KDoc) (tickNo : Nat)
    (ledger : List Kernel.AuditRecord)
    (hnr : ∀ kv ∈ doc.services, kv.2.status ≠ "running") :
    ∃ rec0, (Kernel.tick io doc tickNo ledger).2.1 = ledger ++ [rec0] ∧
      rec0.patch = [] ∧ rec0.events = [] ∧ rec0.tick = tickNo ∧
      (Kernel.tick io doc tickNo ledger).1.state = doc.state ∧
      (Kernel.tick io doc tickNo ledger).1.services = doc.services ∧
      (Kernel.tick io doc tickNo ledger).2.2 = [] := by
  have hfilter : doc.services.filter (fun kv => kv.2.status = "running") = [] := by
    rw [List.filter_eq_nil_iff]
    intro kv hkv
    simp [hnr kv hkv]
  have hmap : doc.services.map (fun kv =>
      if kv.2.status = "running" then (kv.1, Kernel.lifecycleAfterFire kv.2) else kv)
      = doc.services := by
    conv_rhs => rw [← List.map_id doc.services]
    exact List.map_congr_left (fun kv hkv => by rw [if_neg (hnr kv hkv)]; rfl)
  refine ⟨⟨tickNo, [], [],
    (ledger.getLast?).elim 0 (fun r => r.hash),
    Kernel.hashRecord ((ledger.getLast?).elim 0 (fun r => r.hash)) tickNo [] []⟩,
    ?_, rfl, rfl, rfl, ?_, ?_, ?_⟩ <;>
    simp [Kernel.tick, hfilter, hmap, Kernel.applyPatch]

/-- C8 witness: a concrete tick over a document whose only services are
stopped appends one empty record and changes nothing. -/
theorem c8_noop_tick_witness :
    ∃ rec0, (Kernel.tick (fun _ _ => ([("k", Json.num 1)], []))
        ⟨"1.0", [("a1", ⟨"a1", "adapter", "stopped", Json.obj []⟩)],
          [("k", Json.num 0)]⟩ 4 []).2.1 = [] ++ [rec0] ∧
      rec0.patch = [] ∧ rec0.events = [] ∧ rec0.tick = 4 ∧
      (Kernel.tick (fun _ _ => ([("k", Json.num 1)], []))
        ⟨"1.0", [("a1", ⟨"a1", "adapter", "stopped", Json.obj []⟩)],
          [("k", Json.num 0)]⟩ 4 []).1.state = [("k", Json.num 0)] ∧
      (Kernel.tick (fun _ _ => ([("k", Json.num 1)], []))
        ⟨"1.0", [("a1", ⟨"a1", "adapter", "stopped", Json.obj []⟩)],
          [("k", Json.num 0)]⟩ 4 []).1.services
        = [("a1", ⟨"a1", "adapter", "stopped", Json.obj []⟩)] ∧
      (Kernel.tick (fun _ _ => ([("k", Json.num 1)], []))
        ⟨"1.0", [("a1", ⟨"a1", "adapter", "stopped", Json.obj []⟩)],
          [("k", Json.num 0)]⟩ 4 []).2.2 = [] :=
  c8_noop_tick _ _ 4 [] (by intro kv hkv; simp at hkv; rw [hkv]; simp)

theorem intervalFire_inactive (s : EPE.SchedState) (now : String)
    (h : s.intervalActive = false) : EPE.intervalFire s now = s := by
  rw [EPE.intervalFire, if_pos h]

theorem intervalFire_active (s : EPE.SchedState) (now : String)
    (h : s.intervalActive = true) :
    (EPE.intervalFire s now).tick = s.tick + 1 ∧
    (EPE.intervalFire s now).intervalActive = decide (s.tick + 1 < 5) := by
  rw [EPE.intervalFire, if_neg (by simp [h])]
  by_cases hdone : 5 ≤ s.tick + 1
  · rw [if_pos hdone]
    exact ⟨rfl, by simp [show ¬(s.tick + 1 < 5) by omega]⟩
  · rw [if_neg hdone]
    exact ⟨rfl, by simp [show s.tick + 1 < 5 by omega]⟩

theorem schedRun_inv (acts : List EPE.SchedAct) (s : EPE.SchedState)
    (h5 : s.tick ≤ 5) (hia : s.intervalActive = decide (s.tick < 5)) :
    (EPE.schedRun s acts).tick = min (s.tick + EPE.countFires acts) 5 ∧
    (EPE.schedRun s acts).intervalActive = decide ((EPE.schedRun s acts).tick < 5) ∧
    (EPE.schedRun s acts).tick ≤ 5 := by
  induction acts generalizing s with
  | nil =>
    refine ⟨?_, hia, h5⟩
    simp [EPE.schedRun, EPE.countFires]
    omega
  | cons a acts ih =>
    have hstep : EPE.schedRun s (a :: acts) = EPE.schedRun (EPE.schedStep s a) acts := by
      rw [EPE.schedRun, EPE.schedRun, List.foldl_cons]
    cases a with
    | stop now =>
      rw [hstep]
      have hcf : EPE.countFires (EPE.SchedAct.stop now :: acts) = EPE.countFires acts := by
        simp [EPE.countFires]
      rw [hcf]
      exact ih (EPE.stopPipeline s now) h5 hia
    | fire now =>
      rw [hstep,
        show EPE.schedStep s (EPE.SchedAct.fire now) = EPE.intervalFire s now from rfl]
      have hcf : EPE.countFires (EPE.SchedAct.fire now :: acts)
          = EPE.countFires acts + 1 := by
        simp [EPE.countFires]
      rw [hcf]
      by_cases hact : s.intervalActive = false
      · have htick5 : s.tick = 5 := by
          rw [hact] at hia
          have := of_decide_eq_false hia.symm
          omega
        rw [intervalFire_inactive s now hact]
        obtain ⟨i1, i2, i3⟩ := ih s h5 hia
        refine ⟨?_, i2, i3⟩
        rw [i1]
        omega
      · have hactT : s.intervalActive = true := by
          revert hact
          cases s.intervalActive <;> simp
        have htick : s.tick < 5 := by
          rw [hactT] at hia
          exact of_decide_eq_true hia.symm
        obtain ⟨ht, ha⟩ := intervalFire_active s now hactT
        obtain ⟨i1, i2, i3⟩ := ih (EPE.intervalFire s now) (by rw [ht]; omega)
          (by rw [ht, ha])
        refine ⟨?_, i2, i3⟩
        rw [i1, ht]
        omega

/-- C3 (amended): after `runPipeline()`, each interval firing executes one
tick while the interval is active, and the interval deactivates itself
after the fifth tick regardless of service statuses and regardless of any
`stopPipeline()` calls; `stopPipeline()` only clears `isRunning` (leaving
tick counter and interval untouched, hence idempotent), so ticking
continues until the fifth firing. -/
theorem c3_scheduler_behavior :
    (∀ (st0 : EPE.EditorState) (now0 : String) (acts : List EPE.SchedAct),
      (EPE.schedRun (EPE.runPipeline st0 now0) acts).tick
        = min (EPE.countFires acts) 5 ∧
      (EPE.schedRun (EPE.runPipeline st0 now0) acts).intervalActive
        = decide (EPE.countFires acts < 5)) ∧
    (∀ (s : EPE.SchedState) (now : String),
      (EPE.stopPipeline s now).tick = s.tick ∧
      (EPE.stopPipeline s now).intervalActive = s.intervalActive ∧
      (EPE.stopPipeline s now).st.isRunning = false) := by
  constructor
  · intro st0 now0 acts
    obtain ⟨h1, h2, h3⟩ := schedRun_inv acts (EPE.runPipeline st0 now0)
      (by simp [EPE.runPipeline]) (by simp [EPE.runPipeline])
    have h0 : (EPE.runPipeline st0 now0).tick = 0 := rfl
    rw [h0] at h1
    simp only [Nat.zero_add] at h1
    refine ⟨h1, ?_⟩
    rw [h2, h1]
    by_cases h : EPE.countFires acts < 5
    · rw [decide_eq_true (by omega : min (EPE.countFires acts) 5 < 5),
        decide_eq_true h]
    · rw [decide_eq_false (by omega : ¬(min (EPE.countFires acts) 5 < 5)),
        decide_eq_false h]
  · intro s now
    exact ⟨rfl, rfl, rfl⟩

/-- A concrete editor state with one running monitor service, used to
exhibit the scheduler's actual stopping behavior. -/
def c3state : EPE.EditorState :=
  ⟨Json.obj [("spc_version", Json.str "1.0"),
    ("services", Json.obj [("m1", Json.obj [("id", Json.str "m1"),
      ("type", Json.str "monitor"), ("status", Json.str "running")])]),
    ("state", Json.obj [])], none, false, []⟩

/-- C3 counterexample: calling `stopPipeline()` does not end the loop at
the next tick boundary (the next firing still executes tick 1), and after
five firings the interval deactivates even though a service is still
`running` — refuting both "a call to `stop()` always ends the loop at the
next tick boundary" and "it never halts for any other reason". -/
theorem c3_counterexample :
    (EPE.intervalFire (EPE.stopPipeline (EPE.runPipeline c3state "t0") "t1") "t2").tick
      = 1 ∧
    (EPE.stopPipeline (EPE.runPipeline c3state "t0") "t1").tick = 0 ∧
    (EPE.schedRun (EPE.runPipeline c3state "t0")
      [EPE.SchedAct.fire "a", EPE.SchedAct.fire "b", EPE.SchedAct.fire "c",
       EPE.SchedAct.fire "d", EPE.SchedAct.fire "e"]).intervalActive = false ∧
    ((servicesOf (EPE.schedRun (EPE.runPipeline c3state "t0")
      [EPE.SchedAct.fire "a", EPE.SchedAct.fire "b", EPE.SchedAct.fire "c",
       EPE.SchedAct.fire "d", EPE.SchedAct.fire "e"]).st.spc).lookup "m1").any
        (fun svc => svc.getField "status" == some (Json.str "running")) = true := by
  decide

/-- A document that already contains a service stored under the key
`connector-5`, which collides with the id `addService` generates when
`Date.now()` returns 5. -/
def c9doc : Json :=
  Json.obj [("spc_version", Json.str "1.0"),
    ("services", Json.obj [("connector-5", Json.obj [("id", Json.str "connector-5"),
      ("type", Json.str "connector"), ("status", Json.str "running")])])]

/-- C9 counterexample: when the generated id `type-Date.now()` collides
with an existing key, the existing entry is overwritten — refuting
"leaves every previously existing service entry unchanged". -/
theorem c9_counterexample :
    (servicesOf (EPE.addService ⟨c9doc, none, false, []⟩ "connector" 5 "ts").spc).lookup
        "connector-5"
      ≠ some (Json.obj [("id", Json.str "connector-5"),
          ("type", Json.str "connector"), ("status", Json.str "running")]) := by
  decide

/-- C9 (amended): adding a service stores the new service under a key
equal to its own `id` field (`type-Date.now()`), with status `stopped` and
with `spec` equal to the declared default spec for that type, and leaves
every previously existing service entry whose key differs from the
generated id unchanged (an existing entry under the generated id itself is
overwritten); this holds for `EnhancedPipelineEditor` on every type and
for `PipelineEditor` on every configured type. -/
theorem c9_addService (stE : EPE.EditorState) (stP : PE.EditorState)
    (type : String) (now : Nat) (ts : String)
    (kvsE kvsP : List (String × Json)) (cfg : PE.TypeConfig)
    (hE : stE.spc = Json.obj kvsE) (hP : stP.spc = Json.obj kvsP)
    (hcfg : PE.SERVICE_TYPES type = some cfg) :
    (∃ svc, (servicesOf (EPE.addService stE type now ts).spc).lookup
        (type ++ "-" ++ natStr now) = some svc ∧
      svc.getField "id" = some (Json.str (type ++ "-" ++ natStr now)) ∧
      svc.getField "status" = some (Json.str "stopped") ∧
      svc.getField "spec" = some (EPE.getDefaultSpec type)) ∧
    (∀ k, k ≠ type ++ "-" ++ natStr now →
      (servicesOf (EPE.addService stE type now ts).spc).lookup k
        = (servicesOf stE.spc).lookup k) ∧
    (∃ svc, (servicesOf (PE.addService stP type now).spc).lookup
        (type ++ "-" ++ natStr now) = some svc ∧
      svc.getField "id" = some (Json.str (type ++ "-" ++ natStr now)) ∧
      svc.getField "status" = some (Json.str "stopped") ∧
      svc.getField "spec" = some cfg.defaultSpec) ∧
    (∀ k, k ≠ type ++ "-" ++ natStr now →
      (servicesOf (PE.addService stP type now).spc).lookup k
        = (servicesOf stP.spc).lookup k) := by
  refine ⟨?_, ?_, ?_, ?_⟩
  · rw [EPE.addService]
    simp only [hE, EPE.addLog]
    rw [servicesOf_obj_setField]
    refine ⟨_, lookup_setKey_self _ _ _, ?_, ?_, ?_⟩ <;>
      simp [Json.getField, List.lookup]
  · intro k hk
    rw [EPE.addService]
    simp only [hE, EPE.addLog]
    rw [servicesOf_obj_setField, lookup_setKey_ne hk]
  · rw [PE.addService, hcfg]
    simp only [hP]
    rw [servicesOf_obj_setField]
    refine ⟨_, lookup_setKey_self _ _ _, ?_, ?_, ?_⟩ <;>
      simp [Json.getField, List.lookup]
  · intro k hk
    rw [PE.addService, hcfg]
    simp only [hP]
    rw [servicesOf_obj_setField, lookup_setKey_ne hk]

/-- C9 witness: adding a monitor at `Date.now() = 7` to a document with an
empty services map behaves as stated. -/
theorem c9_addService_witness :
    (∃ svc, (servicesOf (EPE.addService
        ⟨Json.obj [("services", Json.obj [])], none, false, []⟩
        "monitor" 7 "ts").spc).lookup ("monitor" ++ "-" ++ natStr 7) = some svc ∧
      svc.getField "id" = some (Json.str ("monitor" ++ "-" ++ natStr 7)) ∧
      svc.getField "status" = some (Json.str "stopped") ∧
      svc.getField "spec" = some (EPE.getDefaultSpec "monitor")) ∧
    (∀ k, k ≠ "monitor" ++ "-" ++ natStr 7 →
      (servicesOf (EPE.addService
        ⟨Json.obj [("services", Json.obj [])], none, false, []⟩
        "monitor" 7 "ts").spc).lookup k
        = (servicesOf (⟨Json.obj [("services", Json.obj [])], none, false, []⟩ :
            EPE.EditorState).spc).lookup k) ∧
    (∃ svc, (servicesOf (PE.addService
        ⟨Json.obj [("services", Json.obj [])], none, false, [], none⟩
        "monitor" 7).spc).lookup ("monitor" ++ "-" ++ natStr 7) = some svc ∧
      svc.getField "id" = some (Json.str ("monitor" ++ "-" ++ natStr 7)) ∧
      svc.getField "status" = some (Json.str "stopped") ∧
      svc.getField "spec" = some (PE.TypeConfig.mk "Monitor"
        (Json.obj [("checks", Json.arr []), ("emit", Json.str "onChange")])).defaultSpec) ∧
    (∀ k, k ≠ "monitor" ++ "-" ++ natStr 7 →
      (servicesOf (PE.addService
        ⟨Json.obj [("services", Json.obj [])], none, false, [], none⟩
        "monitor" 7).spc).lookup k
        = (servicesOf (⟨Json.obj [("services", Json.obj [])], none, false, [], none⟩ :
            PE.EditorState).spc).lookup k) :=
  c9_addService _ _ "monitor" 7 "ts" [("services", Json.obj [])]
    [("services", Json.obj [])]
    ⟨"Monitor", Json.obj [("checks", Json.arr []), ("emit", Json.str "onChange")]⟩
    rfl rfl rfl

/-- The editor state after a sequence of `addLog` calls in
`PipelineEditor`, one per given entry. -/
def PE.runLogs (st : PE.EditorState) (es : List LogEntry) : PE.EditorState :=
  es.foldl (fun s e => PE.addLog s e.level e.message e.timestamp) st

/-- The editor state after a sequence of `addLog` calls in
`EnhancedPipelineEditor`, one per given entry. -/
def EPE.runLogs (st : EPE.EditorState) (es : List LogEntry) : EPE.EditorState :=
  es.foldl (fun s e => EPE.addLog s e.level e.message e.timestamp) st

theorem PE.runLogs_executionLog (st : PE.EditorState) (es : List LogEntry) :
    (PE.runLogs st es).executionLog =
      es.foldl (fun acc e => takeLast 50 (acc ++ [e])) st.executionLog := by
  induction es generalizing st with
  | nil => rfl
  | cons e es ih =>
    rw [PE.runLogs, List.foldl_cons, List.foldl_cons, ← PE.runLogs]
    exact ih _

theorem EPE.runLogs_logs (st : EPE.EditorState) (es : List LogEntry) :
    (EPE.runLogs st es).logs =
      es.foldl (fun acc e => takeLast 30 (acc ++ [e])) st.logs := by
  induction es generalizing st with
  | nil => rfl
  | cons e es ih =>
    rw [EPE.runLogs, List.foldl_cons, List.foldl_cons, ← EPE.runLogs]
    exact ih _

/-- C10: starting from an empty log, any sequence of `addLog` calls leaves
exactly the capped suffix of the appended entries — at most 50
(`PipelineEditor`) respectively 30 (`EnhancedPipelineEditor`) most recent
entries, in append order, only the oldest entries dropped. -/
theorem c10_log_bounded (stP : PE.EditorState) (stE : EPE.EditorState)
    (es : List LogEntry) :
    (PE.runLogs { stP with executionLog := [] } es).executionLog = takeLast 50 es ∧
    (PE.runLogs { stP with executionLog := [] } es).executionLog.length ≤ 50 ∧
    (EPE.runLogs { stE with logs := [] } es).logs = takeLast 30 es ∧
    (EPE.runLogs { stE with logs := [] } es).logs.length ≤ 30 := by
  have hP : (PE.runLogs { stP with executionLog := [] } es).executionLog
      = takeLast 50 es := by
    rw [PE.runLogs_executionLog]
    have := foldl_takeLast (by omega : 1 ≤ 50) es ([] : List LogEntry)
    simp only [takeLast, List.length_nil, List.nil_append, List.drop_nil] at this ⊢
    exact this
  have hE : (EPE.runLogs { stE with logs := [] } es).logs = takeLast 30 es := by
    rw [EPE.runLogs_logs]
    have := foldl_takeLast (by omega : 1 ≤ 30) es ([] : List LogEntry)
    simp only [takeLast, List.length_nil, List.nil_append, List.drop_nil] at this ⊢
    exact this
  exact ⟨hP, by rw [hP]; exact takeLast_length_le 50 es,
    hE, by rw [hE]; exact takeLast_length_le 30 es⟩
